import Mathlib

/-!
# RK3562 pin-control driver: register translators

Shallow embedding of `u-boot/drivers/pinctrl/rockchip/pinctrl-rk3562.c`.

Conventions of the embedding.

* A C `int` is a Lean `Int`.  Intermediate `int` arithmetic is carried out
  unbounded; every value that the source stores in a `u32` goes through
  `to_u32` (reduction modulo `2^32`) and every value stored in a `u8` through
  `to_u8` (reduction modulo `2^8`).  Addition, subtraction, left shift and the
  bitwise operators all commute with reduction modulo `2^32`, so this agrees
  with wrapping 32-bit arithmetic.
* `/` and `%` of C truncate toward zero: `Int.tdiv` and `Int.tmod`.
* A left shift whose amount is outside `0..31`, and a read outside a
  four-element array, have no defined result: the embedding returns `none`.
* On a machine a shift by an amount outside `0..31` still yields some value
  and the function goes on.  `c_shl_any` and `rk3562_set_drive_any` take that
  value from an arbitrary function `ub`; they agree with `c_shl` and
  `rk3562_set_drive` wherever C defines the shift.
* The register-access transport is external.  A `regmap` carries the
  transport's answer function and the log of the writes issued so far, so
  that the writes of an operation can be read off the final log.
-/

namespace RK3562

/-! ## Machine integers -/

/-- Value of a C `int` after conversion to `u8`. -/
def to_u8 (x : Int) : Int := x % 256

/-- Value of a C `int` after conversion to `u32`. -/
def to_u32 (x : Int) : Nat := (x % 4294967296).toNat

/-- C division of `int`s, truncating toward zero. -/
def c_div (a b : Int) : Int := Int.tdiv a b

/-- C remainder of `int`s, with the sign of the dividend. -/
def c_mod (a b : Int) : Int := Int.tmod a b

/-- C `x << n` on `int`: defined when the amount is within the word width. -/
def c_shl (x n : Int) : Option Int :=
  if 0 ≤ n ∧ n < 32 then some (x * 2 ^ n.toNat) else none

/-- C `x << n` on a machine: the defined result when the amount is within
the word width, and otherwise `ub x n`, where `ub` stands for whatever the
machine's shifter yields for an amount that C leaves undefined. -/
def c_shl_any (ub : Int → Int → Int) (x n : Int) : Int :=
  match c_shl x n with
  | some y => y
  | none => ub x n

/-- C `a & b` on `int`s (two's complement). -/
def c_and (a b : Int) : Int := Int.land a b

/-! ## Data model -/

/-- A C array of four elements. -/
structure Arr4 (α : Type) where
  e0 : α
  e1 : α
  e2 : α
  e3 : α
deriving DecidableEq, Repr

/-- Read `a[i]`; there is no element outside `0..3`. -/
def Arr4.at {α : Type} (a : Arr4 α) (i : Int) : Option α :=
  if i = 0 then some a.e0
  else if i = 1 then some a.e1
  else if i = 2 then some a.e2
  else if i = 3 then some a.e3
  else none

/-- Modelled from the spec: `struct rockchip_iomux` is declared in
`pinctrl-rockchip.h`, which is not part of the source; an 8-pin group has an
iomux encoding width (`type`) and an iomux register base offset. -/
structure rockchip_iomux where
  type : Int
  offset : Int
deriving DecidableEq, Repr

/-- Modelled from the spec: `struct rockchip_pin_bank` is declared in
`pinctrl-rockchip.h`, which is not part of the source; the fields are the ones
this driver reads or initialises: bank index, pin count, name, the iomux
entry and the pull-type classification of each of the four 8-pin groups. -/
structure rockchip_pin_bank where
  bank_num : Int
  nr_pins : Nat
  name : String
  iomux : Arr4 rockchip_iomux
  pull_type : Arr4 Int
deriving DecidableEq, Repr

/-- One write handed to the register-access transport. -/
structure RegWrite where
  reg : Int
  val : Nat
deriving DecidableEq, Repr

/-- Modelled from the spec: `struct regmap` and `regmap_write` belong to the
register-access transport, which is not part of the source.  `answer` is the
return code the transport gives to a write, as a function of the writes that
came before it; `log` records the writes issued so far, oldest first. -/
structure regmap where
  answer : List RegWrite → RegWrite → Int
  log : List RegWrite

/-- Modelled from the spec: `regmap_write(map, reg, val)` hands one
(register offset, 32-bit value) write to the transport and returns the
transport's return code. -/
def regmap_write (m : regmap) (reg : Int) (val : Nat) : Int × regmap :=
  (m.answer m.log ⟨reg, val⟩, { m with log := m.log ++ [⟨reg, val⟩] })

/-- The constants and the collaborator that the driver takes from headers and
from the generic pin-control code, none of which is part of the source. -/
structure Externals where
  ENOTSUPP : Int
  PIN_CONFIG_BIAS_PULL_PIN_DEFAULT : Int
  rockchip_translate_pull_value : Int → Int → Int

/-! ## Mux translator -/

/-- `rk3562_set_mux(bank, pin, mux)`. -/
def rk3562_set_mux (m : regmap) (bank : rockchip_pin_bank) (pin mux : Int) :
    Option (Int × regmap) := do
  let iomux_num := c_div pin 8
  let iom ← bank.iomux.at iomux_num
  let reg := iom.offset
  let reg := if c_mod pin 8 ≥ 4 then reg + 0x4 else reg
  let bit := to_u8 (c_mod pin 4 * 4)
  let mask : Int := 0xf
  let hi ← c_shl mask (bit + 16)
  let data := to_u32 hi
  let lo ← c_shl (c_and mux mask) bit
  let data := data ||| to_u32 lo
  -- force jtag m1
  let m :=
    if bank.bank_num = 1 then
      if pin = 13 ∨ pin = 14 then
        if mux = 1 then (regmap_write m 0x504 0x10001).2
        else (regmap_write m 0x504 0x10000).2
      else m
    else m
  let (ret, m) := regmap_write m reg data
  pure (ret, m)

/-- The register offset and bit position that `rk3562_set_mux` computes for a
pin: its local variables `reg` and `bit` once `bit = (pin % 4) * 4;` has run. -/
def rk3562_mux_reg_and_bit (bank : rockchip_pin_bank) (pin : Int) : Option (Int × Int) := do
  let iomux_num := c_div pin 8
  let iom ← bank.iomux.at iomux_num
  let reg := iom.offset
  let reg := if c_mod pin 8 ≥ 4 then reg + 0x4 else reg
  let bit := to_u8 (c_mod pin 4 * 4)
  pure (reg, bit)

/-! ## Drive-strength translator -/

def RK3562_DRV_BITS_PER_PIN : Int := 8
def RK3562_DRV_PINS_PER_REG : Int := 2
def RK3562_DRV_GPIO0_OFFSET : Int := 0x20070
def RK3562_DRV_GPIO1_OFFSET : Int := 0x200
def RK3562_DRV_GPIO2_OFFSET : Int := 0x240
def RK3562_DRV_GPIO3_OFFSET : Int := 0x10280
def RK3562_DRV_GPIO4_OFFSET : Int := 0x102C0

/-- `rk3562_calc_drv_reg_and_bit`: the pair `(*reg, *bit)`. -/
def rk3562_calc_drv_reg_and_bit (bank : rockchip_pin_bank) (pin_num : Int) : Int × Int :=
  let reg :=
    if bank.bank_num = 0 then RK3562_DRV_GPIO0_OFFSET
    else if bank.bank_num = 1 then RK3562_DRV_GPIO1_OFFSET
    else if bank.bank_num = 2 then RK3562_DRV_GPIO2_OFFSET
    else if bank.bank_num = 3 then RK3562_DRV_GPIO3_OFFSET
    else if bank.bank_num = 4 then RK3562_DRV_GPIO4_OFFSET
    else 0
  let reg := reg + (c_div pin_num RK3562_DRV_PINS_PER_REG) * 4
  let bit := to_u8 (c_mod pin_num RK3562_DRV_PINS_PER_REG)
  let bit := to_u8 (bit * RK3562_DRV_BITS_PER_PIN)
  (reg, bit)

/-- The initialiser `int drv = (1 << (strength + 1)) - 1;` of `rk3562_set_drive`. -/
def rk3562_drv_code (strength : Int) : Option Int := do
  let one ← c_shl 1 (strength + 1)
  pure (one - 1)

/-- `rk3562_set_drive(bank, pin_num, strength)`. -/
def rk3562_set_drive (m : regmap) (bank : rockchip_pin_bank) (pin_num strength : Int) :
    Option (Int × regmap) := do
  let drv ← rk3562_drv_code strength
  let (reg, bit) := rk3562_calc_drv_reg_and_bit bank pin_num
  -- enable the write to the equivalent lower bits
  let width ← c_shl 1 RK3562_DRV_BITS_PER_PIN
  let hi ← c_shl (width - 1) (bit + 16)
  let data := to_u32 hi
  let lo ← c_shl drv bit
  let data := data ||| to_u32 lo
  let (ret, m) := regmap_write m reg data
  pure (ret, m)

/-- The initialiser `int drv = (1 << (strength + 1)) - 1;` of
`rk3562_set_drive`, with the shift taken on a machine. -/
def rk3562_drv_code_any (ub : Int → Int → Int) (strength : Int) : Int :=
  c_shl_any ub 1 (strength + 1) - 1

/-- `rk3562_set_drive(bank, pin_num, strength)` with every shift taken on a
machine (`c_shl_any`): the function runs to its `regmap_write` for every
strength, also where C leaves the value of `1 << (strength + 1)` undefined. -/
def rk3562_set_drive_any (ub : Int → Int → Int) (m : regmap) (bank : rockchip_pin_bank)
    (pin_num strength : Int) : Int × regmap :=
  let drv := rk3562_drv_code_any ub strength
  let (reg, bit) := rk3562_calc_drv_reg_and_bit bank pin_num
  -- enable the write to the equivalent lower bits
  let data := to_u32 (c_shl_any ub (c_shl_any ub 1 RK3562_DRV_BITS_PER_PIN - 1) (bit + 16))
  let data := data ||| to_u32 (c_shl_any ub drv bit)
  let (ret, m) := regmap_write m reg data
  (ret, m)

/-! ## Pull (bias) translator -/

def RK3562_PULL_BITS_PER_PIN : Int := 2
def RK3562_PULL_PINS_PER_REG : Int := 8
def RK3562_PULL_GPIO0_OFFSET : Int := 0x20020
def RK3562_PULL_GPIO1_OFFSET : Int := 0x80
def RK3562_PULL_GPIO2_OFFSET : Int := 0x90
def RK3562_PULL_GPIO3_OFFSET : Int := 0x100A0
def RK3562_PULL_GPIO4_OFFSET : Int := 0x100B0

/-- `rk3562_calc_pull_reg_and_bit`: the pair `(*reg, *bit)`. -/
def rk3562_calc_pull_reg_and_bit (bank : rockchip_pin_bank) (pin_num : Int) : Int × Int :=
  let reg :=
    if bank.bank_num = 0 then RK3562_PULL_GPIO0_OFFSET
    else if bank.bank_num = 1 then RK3562_PULL_GPIO1_OFFSET
    else if bank.bank_num = 2 then RK3562_PULL_GPIO2_OFFSET
    else if bank.bank_num = 3 then RK3562_PULL_GPIO3_OFFSET
    else if bank.bank_num = 4 then RK3562_PULL_GPIO4_OFFSET
    else 0
  let reg := reg + (c_div pin_num RK3562_PULL_PINS_PER_REG) * 4
  let bit := to_u8 (c_mod pin_num RK3562_PULL_PINS_PER_REG)
  let bit := to_u8 (bit * RK3562_PULL_BITS_PER_PIN)
  (reg, bit)

/-- `rk3562_set_pull(bank, pin_num, pull)`. -/
def rk3562_set_pull (x : Externals) (m : regmap) (bank : rockchip_pin_bank)
    (pin_num pull : Int) : Option (Int × regmap) :=
  if pull = x.PIN_CONFIG_BIAS_PULL_PIN_DEFAULT then
    some (-x.ENOTSUPP, m)
  else do
    let (reg, bit) := rk3562_calc_pull_reg_and_bit bank pin_num
    let type ← (bank.pull_type.at (c_div pin_num 8)).map to_u8
    let ret := x.rockchip_translate_pull_value type pull
    if ret < 0 then
      some (ret, m)
    else do
      -- enable the write to the equivalent lower bits
      let width ← c_shl 1 RK3562_PULL_BITS_PER_PIN
      let hi ← c_shl (width - 1) (bit + 16)
      let data := to_u32 hi
      let lo ← c_shl ret bit
      let data := data ||| to_u32 lo
      let (ret, m) := regmap_write m reg data
      pure (ret, m)

/-! ## Schmitt-trigger translator -/

def RK3562_SMT_BITS_PER_PIN : Int := 2
def RK3562_SMT_PINS_PER_REG : Int := 8
def RK3562_SMT_GPIO0_OFFSET : Int := 0x20030
def RK3562_SMT_GPIO1_OFFSET : Int := 0xC0
def RK3562_SMT_GPIO2_OFFSET : Int := 0xD0
def RK3562_SMT_GPIO3_OFFSET : Int := 0x100E0
def RK3562_SMT_GPIO4_OFFSET : Int := 0x100F0

/-- `rk3562_calc_schmitt_reg_and_bit`: the return code and the pair `(*reg, *bit)`. -/
def rk3562_calc_schmitt_reg_and_bit (bank : rockchip_pin_bank) (pin_num : Int) :
    Int × Int × Int :=
  let reg :=
    if bank.bank_num = 0 then RK3562_SMT_GPIO0_OFFSET
    else if bank.bank_num = 1 then RK3562_SMT_GPIO1_OFFSET
    else if bank.bank_num = 2 then RK3562_SMT_GPIO2_OFFSET
    else if bank.bank_num = 3 then RK3562_SMT_GPIO3_OFFSET
    else if bank.bank_num = 4 then RK3562_SMT_GPIO4_OFFSET
    else 0
  let reg := reg + (c_div pin_num RK3562_SMT_PINS_PER_REG) * 4
  let bit := to_u8 (c_mod pin_num RK3562_SMT_PINS_PER_REG)
  let bit := to_u8 (bit * RK3562_SMT_BITS_PER_PIN)
  (0, reg, bit)

/-- `rk3562_set_schmitt(bank, pin_num, enable)`. -/
def rk3562_set_schmitt (m : regmap) (bank : rockchip_pin_bank) (pin_num enable : Int) :
    Option (Int × regmap) := do
  let (_, reg, bit) := rk3562_calc_schmitt_reg_and_bit bank pin_num
  -- enable the write to the equivalent lower bits
  let width ← c_shl 1 RK3562_SMT_BITS_PER_PIN
  let hi ← c_shl (width - 1) (bit + 16)
  let data := to_u32 hi
  let lo ← c_shl enable bit
  let data := data ||| to_u32 lo
  let (ret, m) := regmap_write m reg data
  pure (ret, m)

/-! ## Static bank table -/

/-- Modelled from the spec: the macro `PIN_BANK_IOMUX_FLAGS_OFFSET` is defined
in `pinctrl-rockchip.h`, which is not part of the source.  It builds a bank
from its index, pin count, name, and the iomux encoding width and iomux
register base offset of each of its four 8-pin groups; the pull-type
classification is left at its zero initial value. -/
def PIN_BANK_IOMUX_FLAGS_OFFSET (id : Int) (pins : Nat) (label : String)
    (iom0 iom1 iom2 iom3 offset0 offset1 offset2 offset3 : Int) : rockchip_pin_bank :=
  { bank_num := id
    nr_pins := pins
    name := label
    iomux := ⟨⟨iom0, offset0⟩, ⟨iom1, offset1⟩, ⟨iom2, offset2⟩, ⟨iom3, offset3⟩⟩
    pull_type := ⟨0, 0, 0, 0⟩ }

/-- `rk3562_pin_banks[]`; the flag `IOMUX_WIDTH_4BIT` comes from a header that
is not part of the source and is a parameter. -/
def rk3562_pin_banks (IOMUX_WIDTH_4BIT : Int) : List rockchip_pin_bank :=
  [ PIN_BANK_IOMUX_FLAGS_OFFSET 0 32 "gpio0"
      IOMUX_WIDTH_4BIT IOMUX_WIDTH_4BIT IOMUX_WIDTH_4BIT IOMUX_WIDTH_4BIT
      0x20000 0x20008 0x20010 0x20018,
    PIN_BANK_IOMUX_FLAGS_OFFSET 1 32 "gpio1"
      IOMUX_WIDTH_4BIT IOMUX_WIDTH_4BIT IOMUX_WIDTH_4BIT IOMUX_WIDTH_4BIT
      0 0x08 0x10 0x18,
    PIN_BANK_IOMUX_FLAGS_OFFSET 2 32 "gpio2"
      IOMUX_WIDTH_4BIT IOMUX_WIDTH_4BIT IOMUX_WIDTH_4BIT IOMUX_WIDTH_4BIT
      0x20 0 0 0,
    PIN_BANK_IOMUX_FLAGS_OFFSET 3 32 "gpio3"
      IOMUX_WIDTH_4BIT IOMUX_WIDTH_4BIT IOMUX_WIDTH_4BIT IOMUX_WIDTH_4BIT
      0x10040 0x10048 0x10050 0x10058,
    PIN_BANK_IOMUX_FLAGS_OFFSET 4 16 "gpio4"
      IOMUX_WIDTH_4BIT IOMUX_WIDTH_4BIT 0 0
      0x10060 0x10068 0 0 ]

/-- Modelled from the spec: `struct rockchip_pin_ctrl` is declared in
`pinctrl-rockchip.h`, which is not part of the source; the chip descriptor
holds the bank table, the number of banks, the chip-wide pin count, the iomux
base offset and the four translators. -/
structure rockchip_pin_ctrl where
  pin_banks : List rockchip_pin_bank
  nr_banks : Nat
  nr_pins : Nat
  grf_mux_offset : Int
  set_mux : regmap → rockchip_pin_bank → Int → Int → Option (Int × regmap)
  set_pull : Externals → regmap → rockchip_pin_bank → Int → Int → Option (Int × regmap)
  set_drive : regmap → rockchip_pin_bank → Int → Int → Option (Int × regmap)
  set_schmitt : regmap → rockchip_pin_bank → Int → Int → Option (Int × regmap)

/-- The descriptor `rk3562_pin_ctrl`; `ARRAY_SIZE` is the length of the table. -/
def rk3562_pin_ctrl (IOMUX_WIDTH_4BIT : Int) : rockchip_pin_ctrl :=
  { pin_banks := rk3562_pin_banks IOMUX_WIDTH_4BIT
    nr_banks := (rk3562_pin_banks IOMUX_WIDTH_4BIT).length
    nr_pins := 144
    grf_mux_offset := 0x0
    set_mux := rk3562_set_mux
    set_pull := rk3562_set_pull
    set_drive := rk3562_set_drive
    set_schmitt := rk3562_set_schmitt }

/-- A register map with an empty log whose transport accepts every write. -/
def quiet_regmap : regmap := ⟨fun _ _ => 0, []⟩

/-- An example of the external constants and of the translation collaborator:
bias modes 1 and 3 translate to the codes 0 and 1, every other mode is refused
with a negative code. -/
def sample_externals : Externals :=
  ⟨524, 4, fun _ pull => if pull = 1 then 0 else if pull = 3 then 1 else -22⟩

/-- A register map with an empty log whose transport refuses every write to
the debug-strap register `0x504` with the code `-5` and accepts every other
write. -/
def strap_fail_regmap : regmap := ⟨fun _ w => if w.reg = 0x504 then -5 else 0, []⟩

/-- The 32-bit value `v` of a masked write stays inside the field of mask `fm`
at bit position `bit`: its upper 16 bits are exactly the field mask shifted to
the bit position, and its lower 16 bits are zero outside that field. -/
def write_within_field (fm bit v : Nat) : Prop :=
  v / 65536 = fm <<< bit ∧ (v % 65536) &&& (65535 ^^^ (fm <<< bit)) = 0

instance write_within_field_decidable (fm bit v : Nat) :
    Decidable (write_within_field fm bit v) := by
  unfold write_within_field
  infer_instance

/-- Modelled from the spec: the write-enable-masked register convention of
the pin-control hardware, which is not part of the source.  Writing the 32-bit
value `v` to a register whose 16 data bits hold `old` leaves
`(old AND NOT en) OR (val AND en)`, where `en` is the upper and `val` the
lower half of `v`. -/
def masked_write (old v : Nat) : Nat :=
  let en := v / 65536
  let val := v % 65536
  (old &&& (65535 ^^^ en)) ||| (val &&& en)

/-! ## Arithmetic of the embedding -/

theorem c_div_natCast (p k : Nat) : c_div (p : Int) (k : Int) = ((p / k : Nat) : Int) := by
  unfold c_div
  rw [Int.tdiv_eq_ediv (Int.ofNat_nonneg p) (Int.ofNat_nonneg k)]
  simp

theorem c_mod_natCast (p k : Nat) : c_mod (p : Int) (k : Int) = ((p % k : Nat) : Int) := by
  unfold c_mod
  rw [Int.tmod_eq_emod (Int.ofNat_nonneg p) (Int.ofNat_nonneg k)]
  simp

theorem to_u8_natCast (n : Nat) (h : n < 256) : to_u8 (n : Int) = (n : Int) := by
  unfold to_u8; omega

theorem c_shl_natCast (x : Int) (n : Nat) (h : n < 32) :
    c_shl x (n : Int) = some (x * 2 ^ n) := by
  unfold c_shl
  rw [if_pos ⟨by omega, by omega⟩]
  simp

theorem to_u32_nonneg (x : Int) (hx : 0 ≤ x) (n : Nat) :
    to_u32 (x * 2 ^ n) = (x.toNat <<< n) % 4294967296 := by
  obtain ⟨k, rfl⟩ := Int.eq_ofNat_of_zero_le hx
  unfold to_u32
  rw [Nat.shiftLeft_eq]
  simp only [Int.toNat_ofNat]
  have : ((k : Int) * 2 ^ n) % 4294967296 = ((k * 2 ^ n % 4294967296 : Nat) : Int) := by
    push_cast; rfl
  rw [this, Int.toNat_ofNat]

theorem to_u32_small (x : Int) (hx : 0 ≤ x) (n : Nat) (h : x.toNat <<< n < 4294967296) :
    to_u32 (x * 2 ^ n) = x.toNat <<< n := by
  rw [to_u32_nonneg x hx n, Nat.mod_eq_of_lt h]

theorem shiftLeft_lt_word (x n a b : Nat) (hx : x ≤ a) (hn : n ≤ b)
    (hab : a <<< b < 4294967296) : x <<< n < 4294967296 := by
  rw [Nat.shiftLeft_eq] at hab ⊢
  calc x * 2 ^ n ≤ a * 2 ^ b :=
        Nat.mul_le_mul hx (Nat.pow_le_pow_right (by norm_num) hn)
    _ < 4294967296 := hab

theorem ldiff_15_lt (x : Nat) (hx : x < 16) : Nat.ldiff 15 x = 15 - x := by
  have h : Nat.ldiff 15 x = 15 ^^^ x := by
    apply Nat.eq_of_testBit_eq
    intro k
    rw [Nat.testBit_ldiff, Nat.testBit_xor]
    have f : (15 : Nat) = 2 ^ 4 - 1 := by norm_num
    rw [f, Nat.testBit_two_pow_sub_one]
    by_cases hk : k < 4
    · simp [hk]
    · have hx2 : x < 2 ^ k :=
        lt_of_lt_of_le hx (by
          have : (16 : Nat) = 2 ^ 4 := by norm_num
          rw [this]
          exact Nat.pow_le_pow_right (by norm_num) (by omega))
      simp [hk, Nat.testBit_lt_two_pow hx2]
  rw [h]
  interval_cases x <;> decide

theorem ldiff_15 (n : Nat) : Nat.ldiff 15 n = 15 - n % 16 := by
  have h1 : Nat.ldiff 15 n = Nat.ldiff 15 (n % 16) := by
    apply Nat.eq_of_testBit_eq
    intro k
    rw [Nat.testBit_ldiff, Nat.testBit_ldiff]
    have e : (16 : Nat) = 2 ^ 4 := by norm_num
    have f : (15 : Nat) = 2 ^ 4 - 1 := by norm_num
    rw [e, Nat.testBit_mod_two_pow, f, Nat.testBit_two_pow_sub_one]
    by_cases hk : k < 4 <;> simp [hk]
  rw [h1]
  exact ldiff_15_lt _ (Nat.mod_lt _ (by norm_num))

/-- Masking a C `int` with `0xf` keeps its residue modulo 16, also when it is negative. -/
theorem c_and_0xf (mux : Int) : c_and mux 0xf = mux % 16 := by
  unfold c_and
  cases mux with
  | ofNat n =>
    show ((n &&& 15 : Nat) : Int) = (n : Int) % 16
    have := Nat.and_pow_two_sub_one_eq_mod n 4
    norm_num at this
    rw [this]; simp
  | negSucc n =>
    show ((Nat.ldiff 15 n : Nat) : Int) = Int.negSucc n % 16
    rw [ldiff_15]
    have : n % 16 < 16 := Nat.mod_lt _ (by norm_num)
    rw [Int.negSucc_eq]
    omega

theorem Arr4.at_natCast {α : Type} (a : Arr4 α) (k : Nat) (hk : k < 4) :
    a.at (k : Int) =
      some (if k = 0 then a.e0 else if k = 1 then a.e1 else if k = 2 then a.e2 else a.e3) := by
  unfold Arr4.at
  interval_cases k <;> simp

/-! ## The mux translator in closed form -/

/-- For a pin in `0..31`, `rk3562_set_mux` reads the iomux entry of the pin's
8-pin group, issues the debug-strap write when the bank is bank 1 and the pin
is 13 or 14, then issues the iomux write and returns its result. -/
theorem rk3562_set_mux_eq (m : regmap) (bank : rockchip_pin_bank) (p : Nat) (hp : p < 32)
    (mux : Int) :
    rk3562_set_mux m bank (p : Int) mux =
      (bank.iomux.at ((p / 8 : Nat) : Int)).map (fun iom =>
        let strap : List RegWrite :=
          if bank.bank_num = 1 ∧ (p = 13 ∨ p = 14) then
            [⟨0x504, if mux = 1 then 0x10001 else 0x10000⟩]
          else []
        let w : RegWrite :=
          ⟨iom.offset + (if 4 ≤ p % 8 then 4 else 0),
           (0xF <<< ((p % 4) * 4 + 16)) ||| ((mux % 16).toNat <<< ((p % 4) * 4))⟩
        (m.answer (m.log ++ strap) w, { m with log := m.log ++ strap ++ [w] })) := by
  have h8 : c_div (p : Int) 8 = ((p / 8 : Nat) : Int) := by
    simpa using c_div_natCast p 8
  have hm8 : c_mod (p : Int) 8 = ((p % 8 : Nat) : Int) := by
    simpa using c_mod_natCast p 8
  have hm4 : c_mod (p : Int) 4 = ((p % 4 : Nat) : Int) := by
    simpa using c_mod_natCast p 4
  have hb4 : p % 4 < 4 := Nat.mod_lt _ (by norm_num)
  have hbit : to_u8 (((p % 4 : Nat) : Int) * 4) = (((p % 4) * 4 : Nat) : Int) := by
    have := to_u8_natCast ((p % 4) * 4) (by omega)
    push_cast at this ⊢
    exact this
  have hhi : c_shl 0xf ((((p % 4) * 4 : Nat) : Int) + 16)
      = some (0xf * 2 ^ ((p % 4) * 4 + 16)) := by
    have := c_shl_natCast 0xf ((p % 4) * 4 + 16) (by omega)
    push_cast at this ⊢
    exact this
  have hlo : c_shl (c_and mux 0xf) (((p % 4) * 4 : Nat) : Int)
      = some (mux % 16 * 2 ^ ((p % 4) * 4)) := by
    rw [c_and_0xf]
    exact c_shl_natCast _ _ (by omega)
  have hvhi : to_u32 (0xf * 2 ^ ((p % 4) * 4 + 16)) = 0xF <<< ((p % 4) * 4 + 16) := by
    have := to_u32_small 0xf (by norm_num) ((p % 4) * 4 + 16)
      (shiftLeft_lt_word _ _ 15 28 (by simp) (by omega) (by decide))
    simpa using this
  have hmux0 : 0 ≤ mux % 16 := Int.emod_nonneg _ (by norm_num)
  have hmux1 : mux % 16 < 16 := Int.emod_lt_of_pos _ (by norm_num)
  have hvlo : to_u32 (mux % 16 * 2 ^ ((p % 4) * 4))
      = (mux % 16).toNat <<< ((p % 4) * 4) :=
    to_u32_small _ hmux0 _
      (shiftLeft_lt_word _ _ 15 28 (by omega) (by omega) (by decide))
  unfold rk3562_set_mux
  rw [h8, hm8, hm4, hbit]
  cases hio : bank.iomux.at ((p / 8 : Nat) : Int) with
  | none => simp only [hio, Option.bind_eq_bind, Option.none_bind, Option.map_none']
  | some iom =>
    simp only [hio, Option.bind_eq_bind, Option.some_bind, Option.map_some', hhi, hlo, hvhi,
      hvlo, regmap_write, Option.pure_def]
    have hreg : (if (((p % 8 : Nat) : Int)) ≥ 4 then iom.offset + 0x4 else iom.offset)
        = iom.offset + (if 4 ≤ p % 8 then 4 else 0) := by
      by_cases h4 : 4 ≤ p % 8
      · rw [if_pos (by omega), if_pos h4]
      · rw [if_neg (by omega), if_neg h4]; simp
    rw [hreg]
    by_cases hb : bank.bank_num = 1
    · by_cases h13 : p = 13
      · subst h13
        by_cases hmx : mux = 1 <;> simp [hb, hmx]
      · by_cases h14 : p = 14
        · subst h14
          by_cases hmx : mux = 1 <;> simp [hb, hmx]
        · have e13 : ¬ ((p : Int) = 13) := by omega
          have e14 : ¬ ((p : Int) = 14) := by omega
          simp [hb, h13, h14, e13, e14]
    · simp [hb]

/-- In the static table, the iomux register of a pin in `0..31` is never the
debug-strap register. -/
theorem rk3562_iomux_reg_ne_strap (w4 : Int) (bank : rockchip_pin_bank)
    (hb : bank ∈ rk3562_pin_banks w4) (p : Nat) (hp : p < 32) (iom : rockchip_iomux)
    (hio : bank.iomux.at ((p / 8 : Nat) : Int) = some iom) :
    iom.offset + (if 4 ≤ p % 8 then 4 else 0) ≠ 0x504 := by
  have hk : p / 8 < 4 := by omega
  rw [Arr4.at_natCast _ _ hk] at hio
  simp only [rk3562_pin_banks, List.mem_cons, List.mem_singleton, List.not_mem_nil,
    or_false] at hb
  generalize p / 8 = k at hk hio
  have hio2 := (Option.some.inj hio).symm
  by_cases h4 : 4 ≤ p % 8
  · rw [if_pos h4]
    rcases hb with rfl | rfl | rfl | rfl | rfl <;> interval_cases k <;>
      simp [PIN_BANK_IOMUX_FLAGS_OFFSET] at hio2 <;> simp [hio2]
  · rw [if_neg h4]
    rcases hb with rfl | rfl | rfl | rfl | rfl <;> interval_cases k <;>
      simp [PIN_BANK_IOMUX_FLAGS_OFFSET] at hio2 <;> simp [hio2]

/-! ## The drive-strength translator in closed form -/

theorem rk3562_calc_drv_reg_and_bit_eq (bank : rockchip_pin_bank) (p : Nat) :
    rk3562_calc_drv_reg_and_bit bank (p : Int) =
      ((if bank.bank_num = 0 then 0x20070
        else if bank.bank_num = 1 then 0x200
        else if bank.bank_num = 2 then 0x240
        else if bank.bank_num = 3 then 0x10280
        else if bank.bank_num = 4 then 0x102C0
        else 0) + ((p / 2 : Nat) : Int) * 4,
       (((p % 2) * 8 : Nat) : Int)) := by
  have hd : c_div (p : Int) 2 = ((p / 2 : Nat) : Int) := by
    simpa using c_div_natCast p 2
  have hm : c_mod (p : Int) 2 = ((p % 2 : Nat) : Int) := by
    simpa using c_mod_natCast p 2
  have h2 : p % 2 < 2 := Nat.mod_lt _ (by norm_num)
  have hb1 : to_u8 ((p % 2 : Nat) : Int) = ((p % 2 : Nat) : Int) :=
    to_u8_natCast _ (by omega)
  have hb2 : to_u8 (((p % 2 : Nat) : Int) * 8) = (((p % 2) * 8 : Nat) : Int) := by
    have := to_u8_natCast ((p % 2) * 8) (by omega)
    push_cast at this ⊢
    exact this
  simp only [rk3562_calc_drv_reg_and_bit, RK3562_DRV_PINS_PER_REG, RK3562_DRV_BITS_PER_PIN,
    RK3562_DRV_GPIO0_OFFSET, RK3562_DRV_GPIO1_OFFSET, RK3562_DRV_GPIO2_OFFSET,
    RK3562_DRV_GPIO3_OFFSET, RK3562_DRV_GPIO4_OFFSET, hd, hm, hb1, hb2]

theorem rk3562_drv_code_eq (s : Nat) (hs : s ≤ 30) :
    rk3562_drv_code (s : Int) = some (2 ^ (s + 1) - 1) := by
  have := c_shl_natCast 1 (s + 1) (by omega)
  push_cast at this
  simp [rk3562_drv_code, this]

/-- For a strength level in `0..30`, `rk3562_set_drive` issues one write and
returns its result; the low half of the value is the drive code shifted to
the pin's field and truncated to the 32-bit word. -/
theorem rk3562_set_drive_eq (m : regmap) (bank : rockchip_pin_bank) (p s : Nat)
    (hs : s ≤ 30) :
    rk3562_set_drive m bank (p : Int) (s : Int) =
      some (m.answer m.log
              ⟨(rk3562_calc_drv_reg_and_bit bank (p : Int)).1,
               (0xFF <<< ((p % 2) * 8 + 16)) |||
                 (((2 ^ (s + 1) - 1) <<< ((p % 2) * 8)) % 4294967296)⟩,
            { m with log := m.log ++
              [⟨(rk3562_calc_drv_reg_and_bit bank (p : Int)).1,
                (0xFF <<< ((p % 2) * 8 + 16)) |||
                  (((2 ^ (s + 1) - 1) <<< ((p % 2) * 8)) % 4294967296)⟩] }) := by
  have h2 : p % 2 < 2 := Nat.mod_lt _ (by norm_num)
  have hw : c_shl 1 RK3562_DRV_BITS_PER_PIN = some 256 := by
    have := c_shl_natCast 1 8 (by norm_num)
    simpa [RK3562_DRV_BITS_PER_PIN] using this
  have hhi : c_shl (256 - 1) ((((p % 2) * 8 : Nat) : Int) + 16)
      = some (255 * 2 ^ ((p % 2) * 8 + 16)) := by
    have := c_shl_natCast 255 ((p % 2) * 8 + 16) (by omega)
    push_cast at this ⊢
    simpa using this
  have hlo : c_shl (2 ^ (s + 1) - 1) (((p % 2) * 8 : Nat) : Int)
      = some ((2 ^ (s + 1) - 1) * 2 ^ ((p % 2) * 8)) :=
    c_shl_natCast _ _ (by omega)
  have hvhi : to_u32 (255 * 2 ^ ((p % 2) * 8 + 16)) = 0xFF <<< ((p % 2) * 8 + 16) := by
    have := to_u32_small 255 (by norm_num) ((p % 2) * 8 + 16)
      (shiftLeft_lt_word _ _ 255 24 (by simp) (by omega) (by decide))
    simpa using this
  have hpow : (1 : Int) ≤ 2 ^ (s + 1) := one_le_pow₀ (by norm_num)
  have hcast : ((2 : Int) ^ (s + 1) - 1).toNat = 2 ^ (s + 1) - 1 := by
    have h1 : (1 : Nat) ≤ 2 ^ (s + 1) := Nat.one_le_two_pow
    have : ((2 : Int) ^ (s + 1) - 1) = ((2 ^ (s + 1) - 1 : Nat) : Int) := by
      push_cast [Nat.cast_sub h1]; rfl
    rw [this, Int.toNat_ofNat]
  have hvlo : to_u32 ((2 ^ (s + 1) - 1) * 2 ^ ((p % 2) * 8))
      = ((2 ^ (s + 1) - 1) <<< ((p % 2) * 8)) % 4294967296 := by
    rw [to_u32_nonneg _ (by omega) _, hcast]
  rw [rk3562_calc_drv_reg_and_bit_eq]
  unfold rk3562_set_drive
  rw [rk3562_drv_code_eq s hs, rk3562_calc_drv_reg_and_bit_eq]
  simp only [Option.bind_eq_bind, Option.some_bind, hw, hhi, hlo, hvhi, hvlo, regmap_write,
    Option.pure_def]

/-! ## The pull translator in closed form -/

theorem rk3562_calc_pull_reg_and_bit_eq (bank : rockchip_pin_bank) (p : Nat) :
    rk3562_calc_pull_reg_and_bit bank (p : Int) =
      ((if bank.bank_num = 0 then 0x20020
        else if bank.bank_num = 1 then 0x80
        else if bank.bank_num = 2 then 0x90
        else if bank.bank_num = 3 then 0x100A0
        else if bank.bank_num = 4 then 0x100B0
        else 0) + ((p / 8 : Nat) : Int) * 4,
       (((p % 8) * 2 : Nat) : Int)) := by
  have hd : c_div (p : Int) 8 = ((p / 8 : Nat) : Int) := by
    simpa using c_div_natCast p 8
  have hm : c_mod (p : Int) 8 = ((p % 8 : Nat) : Int) := by
    simpa using c_mod_natCast p 8
  have h8 : p % 8 < 8 := Nat.mod_lt _ (by norm_num)
  have hb1 : to_u8 ((p % 8 : Nat) : Int) = ((p % 8 : Nat) : Int) :=
    to_u8_natCast _ (by omega)
  have hb2 : to_u8 (((p % 8 : Nat) : Int) * 2) = (((p % 8) * 2 : Nat) : Int) := by
    have := to_u8_natCast ((p % 8) * 2) (by omega)
    push_cast at this ⊢
    exact this
  simp only [rk3562_calc_pull_reg_and_bit, RK3562_PULL_PINS_PER_REG,
    RK3562_PULL_BITS_PER_PIN, RK3562_PULL_GPIO0_OFFSET, RK3562_PULL_GPIO1_OFFSET,
    RK3562_PULL_GPIO2_OFFSET, RK3562_PULL_GPIO3_OFFSET, RK3562_PULL_GPIO4_OFFSET, hd, hm,
    hb1, hb2]

/-- The mask half and the value half of a write to a 2-bit field of an
8-pins-per-register property, for a non-negative value `c`. -/
theorem two_bit_field_halves (p : Nat) (c : Int) (hc : 0 ≤ c) :
    c_shl 1 2 = some 4 ∧
    c_shl (4 - 1) ((((p % 8) * 2 : Nat) : Int) + 16) = some (3 * 2 ^ ((p % 8) * 2 + 16)) ∧
    c_shl c (((p % 8) * 2 : Nat) : Int) = some (c * 2 ^ ((p % 8) * 2)) ∧
    to_u32 (3 * 2 ^ ((p % 8) * 2 + 16)) = 0x3 <<< ((p % 8) * 2 + 16) ∧
    to_u32 (c * 2 ^ ((p % 8) * 2)) = (c.toNat <<< ((p % 8) * 2)) % 4294967296 := by
  have h8 : p % 8 < 8 := Nat.mod_lt _ (by norm_num)
  refine ⟨?_, ?_, ?_, ?_, ?_⟩
  · simpa using c_shl_natCast 1 2 (by norm_num)
  · have := c_shl_natCast 3 ((p % 8) * 2 + 16) (by omega)
    push_cast at this ⊢
    simpa using this
  · exact c_shl_natCast _ _ (by omega)
  · have := to_u32_small 3 (by norm_num) ((p % 8) * 2 + 16)
      (shiftLeft_lt_word _ _ 3 30 (by simp) (by omega) (by decide))
    simpa using this
  · exact to_u32_nonneg c hc _

/-- For a pin in `0..31` and a bias mode other than the default one,
`rk3562_set_pull` reads the pull type of the pin's 8-pin group and asks the
translation collaborator; a negative answer is returned with no write, any
other answer is written to the pin's 2-bit field. -/
theorem rk3562_set_pull_eq (x : Externals) (m : regmap) (bank : rockchip_pin_bank) (p : Nat)
    (pull : Int) (hpull : pull ≠ x.PIN_CONFIG_BIAS_PULL_PIN_DEFAULT) :
    rk3562_set_pull x m bank (p : Int) pull =
      (bank.pull_type.at ((p / 8 : Nat) : Int)).map (fun ty =>
        if x.rockchip_translate_pull_value (to_u8 ty) pull < 0 then
          (x.rockchip_translate_pull_value (to_u8 ty) pull, m)
        else
          (m.answer m.log
            ⟨(rk3562_calc_pull_reg_and_bit bank (p : Int)).1,
             (0x3 <<< ((p % 8) * 2 + 16)) |||
               (((x.rockchip_translate_pull_value (to_u8 ty) pull).toNat
                  <<< ((p % 8) * 2)) % 4294967296)⟩,
           { m with log := m.log ++
             [⟨(rk3562_calc_pull_reg_and_bit bank (p : Int)).1,
               (0x3 <<< ((p % 8) * 2 + 16)) |||
                 (((x.rockchip_translate_pull_value (to_u8 ty) pull).toNat
                    <<< ((p % 8) * 2)) % 4294967296)⟩] })) := by
  have hd : c_div (p : Int) 8 = ((p / 8 : Nat) : Int) := by
    simpa using c_div_natCast p 8
  unfold rk3562_set_pull
  rw [if_neg hpull, hd, rk3562_calc_pull_reg_and_bit_eq]
  cases hty : bank.pull_type.at ((p / 8 : Nat) : Int) with
  | none => simp only [Option.map_none', Option.bind_eq_bind, Option.none_bind]
  | some ty =>
    simp only [Option.map_some', Option.bind_eq_bind, Option.some_bind]
    by_cases hneg : x.rockchip_translate_pull_value (to_u8 ty) pull < 0
    · rw [if_pos hneg, if_pos hneg]
    · rw [if_neg hneg, if_neg hneg]
      obtain ⟨h1, h2, h3, h4, h5⟩ :=
        two_bit_field_halves p (x.rockchip_translate_pull_value (to_u8 ty) pull) (by omega)
      simp only [RK3562_PULL_BITS_PER_PIN, h1, h2, h3, h4, h5, Option.some_bind,
        regmap_write, Option.pure_def]

/-! ## The Schmitt-trigger translator in closed form -/

theorem rk3562_calc_schmitt_reg_and_bit_eq (bank : rockchip_pin_bank) (p : Nat) :
    rk3562_calc_schmitt_reg_and_bit bank (p : Int) =
      (0,
       (if bank.bank_num = 0 then 0x20030
        else if bank.bank_num = 1 then 0xC0
        else if bank.bank_num = 2 then 0xD0
        else if bank.bank_num = 3 then 0x100E0
        else if bank.bank_num = 4 then 0x100F0
        else 0) + ((p / 8 : Nat) : Int) * 4,
       (((p % 8) * 2 : Nat) : Int)) := by
  have hd : c_div (p : Int) 8 = ((p / 8 : Nat) : Int) := by
    simpa using c_div_natCast p 8
  have hm : c_mod (p : Int) 8 = ((p % 8 : Nat) : Int) := by
    simpa using c_mod_natCast p 8
  have h8 : p % 8 < 8 := Nat.mod_lt _ (by norm_num)
  have hb1 : to_u8 ((p % 8 : Nat) : Int) = ((p % 8 : Nat) : Int) :=
    to_u8_natCast _ (by omega)
  have hb2 : to_u8 (((p % 8 : Nat) : Int) * 2) = (((p % 8) * 2 : Nat) : Int) := by
    have := to_u8_natCast ((p % 8) * 2) (by omega)
    push_cast at this ⊢
    exact this
  simp only [rk3562_calc_schmitt_reg_and_bit, RK3562_SMT_PINS_PER_REG,
    RK3562_SMT_BITS_PER_PIN, RK3562_SMT_GPIO0_OFFSET, RK3562_SMT_GPIO1_OFFSET,
    RK3562_SMT_GPIO2_OFFSET, RK3562_SMT_GPIO3_OFFSET, RK3562_SMT_GPIO4_OFFSET, hd, hm,
    hb1, hb2]

/-- For a non-negative enable value, `rk3562_set_schmitt` issues one write and
returns its result; the low half of the value is the enable value shifted to
the pin's field and truncated to the 32-bit word. -/
theorem rk3562_set_schmitt_eq (m : regmap) (bank : rockchip_pin_bank) (p e : Nat) :
    rk3562_set_schmitt m bank (p : Int) (e : Int) =
      some (m.answer m.log
              ⟨(rk3562_calc_schmitt_reg_and_bit bank (p : Int)).2.1,
               (0x3 <<< ((p % 8) * 2 + 16)) ||| ((e <<< ((p % 8) * 2)) % 4294967296)⟩,
            { m with log := m.log ++
              [⟨(rk3562_calc_schmitt_reg_and_bit bank (p : Int)).2.1,
                (0x3 <<< ((p % 8) * 2 + 16)) |||
                  ((e <<< ((p % 8) * 2)) % 4294967296)⟩] }) := by
  obtain ⟨h1, h2, h3, h4, h5⟩ := two_bit_field_halves p (e : Int) (Int.ofNat_nonneg e)
  rw [Int.toNat_ofNat] at h5
  rw [rk3562_calc_schmitt_reg_and_bit_eq]
  unfold rk3562_set_schmitt
  rw [rk3562_calc_schmitt_reg_and_bit_eq]
  simp only [RK3562_SMT_BITS_PER_PIN, h1, h2, h3, h4, h5, Option.bind_eq_bind,
    Option.some_bind, regmap_write, Option.pure_def]

/-! ## Claims -/

/-- C1: for every bank of the static table, every pin below the bank's pin
count and every mux code (any integer), the last write of `rk3562_set_mux` goes
to register `iomux[pin/8].offset + (4 if pin%8 >= 4 else 0)` with the value
`(0xF << ((pin%4)*4 + 16)) | ((mux & 0xF) << ((pin%4)*4))`, where `mux & 0xF`
is the residue of `mux` modulo 16, and the operation returns the result of that
write; bank 0, pin 5, mux 3 writes `0x00F00030` to `0x20004`. -/
theorem rk3562_set_mux_iomux_write (w4 : Int) (bank : rockchip_pin_bank)
    (hb : bank ∈ rk3562_pin_banks w4) (pin : Nat) (hp : pin < bank.nr_pins)
    (mux : Int) (m : regmap) :
    (∃ iom pre,
      bank.iomux.at ((pin / 8 : Nat) : Int) = some iom ∧
      rk3562_set_mux m bank (pin : Int) mux =
        some (m.answer (m.log ++ pre)
                ⟨iom.offset + (if 4 ≤ pin % 8 then 4 else 0),
                 (0xF <<< ((pin % 4) * 4 + 16)) ||| ((mux % 16).toNat <<< ((pin % 4) * 4))⟩,
              { m with log := m.log ++ pre ++
                [⟨iom.offset + (if 4 ≤ pin % 8 then 4 else 0),
                  (0xF <<< ((pin % 4) * 4 + 16)) |||
                    ((mux % 16).toNat <<< ((pin % 4) * 4))⟩] })) ∧
    (∀ b0 ∈ rk3562_pin_banks w4, b0.bank_num = 0 →
      rk3562_set_mux m b0 5 3 =
        some (m.answer m.log ⟨0x20004, 0x00F00030⟩,
              { m with log := m.log ++ [⟨0x20004, 0x00F00030⟩] })) := by
  have hp32 : pin < 32 := by
    simp only [rk3562_pin_banks, List.mem_cons, List.mem_singleton, List.not_mem_nil,
      or_false] at hb
    rcases hb with rfl | rfl | rfl | rfl | rfl <;>
      simp only [PIN_BANK_IOMUX_FLAGS_OFFSET] at hp <;> omega
  constructor
  · have hk : pin / 8 < 4 := by omega
    refine ⟨_, (if bank.bank_num = 1 ∧ (pin = 13 ∨ pin = 14) then
        [⟨0x504, if mux = 1 then 0x10001 else 0x10000⟩] else []),
      Arr4.at_natCast _ _ hk, ?_⟩
    rw [rk3562_set_mux_eq m bank pin hp32 mux, Arr4.at_natCast _ _ hk]
    rfl
  · intro b0 hb0 h0
    simp only [rk3562_pin_banks, List.mem_cons, List.mem_singleton, List.not_mem_nil,
      or_false] at hb0
    have e := rk3562_set_mux_eq m b0 5 (by norm_num) 3
    rcases hb0 with rfl | rfl | rfl | rfl | rfl <;>
      simp [PIN_BANK_IOMUX_FLAGS_OFFSET] at h0
    simp only [Nat.cast_ofNat] at e
    rw [e]
    simp [PIN_BANK_IOMUX_FLAGS_OFFSET, Arr4.at]

/-- Instance of C1 at bank 0, pin 5, mux 3 on a transport that accepts every write. -/
theorem rk3562_set_mux_iomux_write_witness :
    PIN_BANK_IOMUX_FLAGS_OFFSET 0 32 "gpio0" 2 2 2 2 0x20000 0x20008 0x20010 0x20018
        ∈ rk3562_pin_banks 2 ∧
    5 < (PIN_BANK_IOMUX_FLAGS_OFFSET 0 32 "gpio0" 2 2 2 2
          0x20000 0x20008 0x20010 0x20018).nr_pins ∧
    ((∃ iom pre,
      (PIN_BANK_IOMUX_FLAGS_OFFSET 0 32 "gpio0" 2 2 2 2
          0x20000 0x20008 0x20010 0x20018).iomux.at ((5 / 8 : Nat) : Int) = some iom ∧
      rk3562_set_mux quiet_regmap
          (PIN_BANK_IOMUX_FLAGS_OFFSET 0 32 "gpio0" 2 2 2 2 0x20000 0x20008 0x20010 0x20018)
          ((5 : Nat) : Int) 3 =
        some (quiet_regmap.answer (quiet_regmap.log ++ pre)
                ⟨iom.offset + (if 4 ≤ 5 % 8 then 4 else 0),
                 (0xF <<< ((5 % 4) * 4 + 16)) ||| (((3 : Int) % 16).toNat <<< ((5 % 4) * 4))⟩,
              { quiet_regmap with log := quiet_regmap.log ++ pre ++
                [⟨iom.offset + (if 4 ≤ 5 % 8 then 4 else 0),
                  (0xF <<< ((5 % 4) * 4 + 16)) |||
                    (((3 : Int) % 16).toNat <<< ((5 % 4) * 4))⟩] })) ∧
    (∀ b0 ∈ rk3562_pin_banks 2, b0.bank_num = 0 →
      rk3562_set_mux quiet_regmap b0 5 3 =
        some (quiet_regmap.answer quiet_regmap.log ⟨0x20004, 0x00F00030⟩,
              { quiet_regmap with log := quiet_regmap.log ++ [⟨0x20004, 0x00F00030⟩] }))) :=
  ⟨List.Mem.head _, by decide,
    rk3562_set_mux_iomux_write 2 _ (List.Mem.head _) 5 (by decide) 3 quiet_regmap⟩

/-- C2: for every bank, every pin in `0..31` and every mux code, the writes
issued by `rk3562_set_mux` are the debug-strap write to `0x504` exactly when
the bank number is 1 and the pin is 13 or 14, followed by the iomux write.  The
strap write is issued on every such call whatever was written before, and
carries `0x10001` when mux is 1 and `0x10000` otherwise.  For a bank of the
static table the iomux write is never to `0x504`, so a write to `0x504` occurs
iff the bank number is 1 and the pin is 13 or 14, and every other (bank, pin)
gets exactly one write. -/
theorem rk3562_set_mux_debug_strap (w4 : Int) (bank : rockchip_pin_bank) (pin : Nat)
    (hp : pin < 32) (mux : Int) (m : regmap) :
    ∃ iom, bank.iomux.at ((pin / 8 : Nat) : Int) = some iom ∧
      let strap : List RegWrite :=
        if bank.bank_num = 1 ∧ (pin = 13 ∨ pin = 14) then
          [⟨0x504, if mux = 1 then 0x10001 else 0x10000⟩]
        else []
      let w : RegWrite :=
        ⟨iom.offset + (if 4 ≤ pin % 8 then 4 else 0),
         (0xF <<< ((pin % 4) * 4 + 16)) ||| ((mux % 16).toNat <<< ((pin % 4) * 4))⟩
      rk3562_set_mux m bank (pin : Int) mux =
        some (m.answer (m.log ++ strap) w, { m with log := m.log ++ strap ++ [w] }) ∧
      (bank ∈ rk3562_pin_banks w4 →
        w.reg ≠ 0x504 ∧
        ((∃ x ∈ strap ++ [w], x.reg = 0x504) ↔ (bank.bank_num = 1 ∧ (pin = 13 ∨ pin = 14))) ∧
        (¬ (bank.bank_num = 1 ∧ (pin = 13 ∨ pin = 14)) → strap ++ [w] = [w])) := by
  have hk : pin / 8 < 4 := by omega
  refine ⟨_, Arr4.at_natCast _ _ hk, ?_⟩
  intro strap w
  refine ⟨?_, ?_⟩
  · rw [rk3562_set_mux_eq m bank pin hp mux, Arr4.at_natCast _ _ hk]
    rfl
  · intro hb
    have hne : w.reg ≠ 0x504 :=
      rk3562_iomux_reg_ne_strap w4 bank hb pin hp _ (Arr4.at_natCast _ _ hk)
    refine ⟨hne, ?_, ?_⟩
    · by_cases hc : bank.bank_num = 1 ∧ (pin = 13 ∨ pin = 14)
      · refine ⟨fun _ => hc, fun _ => ?_⟩
        simp only [strap, if_pos hc]
        exact ⟨_, List.mem_append_left _ (List.mem_singleton.mpr rfl), rfl⟩
      · refine ⟨fun h => ?_, fun h => absurd h hc⟩
        simp only [strap, if_neg hc, List.nil_append, List.mem_singleton] at h
        obtain ⟨x, rfl, hx⟩ := h
        exact absurd hx hne
    · intro hc
      simp only [strap, if_neg hc, List.nil_append]

/-- Instance of C2 at bank 1, pin 13, mux 1 on a transport that accepts every write. -/
theorem rk3562_set_mux_debug_strap_witness :
    13 < 32 ∧
    ∃ iom, (PIN_BANK_IOMUX_FLAGS_OFFSET 1 32 "gpio1" 2 2 2 2 0 0x08 0x10 0x18).iomux.at
        ((13 / 8 : Nat) : Int) = some iom ∧
      let strap : List RegWrite :=
        if (PIN_BANK_IOMUX_FLAGS_OFFSET 1 32 "gpio1" 2 2 2 2 0 0x08 0x10 0x18).bank_num = 1 ∧
            (13 = 13 ∨ 13 = 14) then
          [⟨0x504, if (1 : Int) = 1 then 0x10001 else 0x10000⟩]
        else []
      let w : RegWrite :=
        ⟨iom.offset + (if 4 ≤ 13 % 8 then 4 else 0),
         (0xF <<< ((13 % 4) * 4 + 16)) ||| (((1 : Int) % 16).toNat <<< ((13 % 4) * 4))⟩
      rk3562_set_mux quiet_regmap
          (PIN_BANK_IOMUX_FLAGS_OFFSET 1 32 "gpio1" 2 2 2 2 0 0x08 0x10 0x18)
          ((13 : Nat) : Int) 1 =
        some (quiet_regmap.answer (quiet_regmap.log ++ strap) w,
              { quiet_regmap with log := quiet_regmap.log ++ strap ++ [w] }) ∧
      (PIN_BANK_IOMUX_FLAGS_OFFSET 1 32 "gpio1" 2 2 2 2 0 0x08 0x10 0x18
          ∈ rk3562_pin_banks 2 →
        w.reg ≠ 0x504 ∧
        ((∃ x ∈ strap ++ [w], x.reg = 0x504) ↔
          ((PIN_BANK_IOMUX_FLAGS_OFFSET 1 32 "gpio1" 2 2 2 2 0 0x08 0x10 0x18).bank_num = 1 ∧
            (13 = 13 ∨ 13 = 14))) ∧
        (¬ ((PIN_BANK_IOMUX_FLAGS_OFFSET 1 32 "gpio1" 2 2 2 2 0 0x08 0x10 0x18).bank_num = 1 ∧
            (13 = 13 ∨ 13 = 14)) → strap ++ [w] = [w])) :=
  ⟨by decide,
    rk3562_set_mux_debug_strap 2
      (PIN_BANK_IOMUX_FLAGS_OFFSET 1 32 "gpio1" 2 2 2 2 0 0x08 0x10 0x18) 13 (by decide) 1
      quiet_regmap⟩

/-- C3: for every bank number `b` in `0..4`, every pin in `0..31` and every
strength level in `0..7`, `rk3562_set_drive` issues exactly one write, to
register `base(b) + (pin/2)*4` with base `0x20070, 0x200, 0x240, 0x10280,
0x102C0`, carrying `(0xFF << ((pin%2)*8 + 16)) | (((1 << (strength+1)) - 1) <<
((pin%2)*8))`, and returns the result of that write; bank 3, pin 10, strength 2
writes `0x00FF0007` to `0x10294`. -/
theorem rk3562_set_drive_write (bank : rockchip_pin_bank) (b : Nat) (hb : b ≤ 4)
    (hbn : bank.bank_num = (b : Int)) (pin : Nat) (_hp : pin < 32) (strength : Nat)
    (hs : strength ≤ 7) (m : regmap) :
    (let w : RegWrite :=
        ⟨([0x20070, 0x200, 0x240, 0x10280, 0x102C0] : List Int).getD b 0
            + ((pin / 2 : Nat) : Int) * 4,
         (0xFF <<< ((pin % 2) * 8 + 16)) |||
           (((1 <<< (strength + 1)) - 1) <<< ((pin % 2) * 8))⟩;
      rk3562_set_drive m bank (pin : Int) (strength : Int) =
        some (m.answer m.log w, { m with log := m.log ++ [w] })) ∧
    (b = 3 →
      rk3562_set_drive m bank 10 2 =
        some (m.answer m.log ⟨0x10294, 0x00FF0007⟩,
              { m with log := m.log ++ [⟨0x10294, 0x00FF0007⟩] })) := by
  have hreg : ∀ q : Nat, (rk3562_calc_drv_reg_and_bit bank (q : Int)).1 =
      ([0x20070, 0x200, 0x240, 0x10280, 0x102C0] : List Int).getD b 0
        + ((q / 2 : Nat) : Int) * 4 := by
    intro q
    rw [rk3562_calc_drv_reg_and_bit_eq, hbn]
    interval_cases b <;> simp
  constructor
  · intro w
    have h2 : pin % 2 < 2 := Nat.mod_lt _ (by norm_num)
    have hle : 2 ^ (strength + 1) - 1 ≤ 255 := by
      have : 2 ^ (strength + 1) ≤ 2 ^ 8 := Nat.pow_le_pow_right (by norm_num) (by omega)
      omega
    have hlt : (2 ^ (strength + 1) - 1) <<< ((pin % 2) * 8) < 4294967296 :=
      shiftLeft_lt_word _ _ 255 8 hle (by omega) (by decide)
    rw [rk3562_set_drive_eq m bank pin strength (by omega), Nat.mod_eq_of_lt hlt, hreg]
    simp only [w, Nat.one_shiftLeft]
  · intro h3
    subst h3
    have e := rk3562_set_drive_eq m bank 10 2 (by norm_num)
    rw [hreg] at e
    simpa using e

/-- Instance of C3 at bank 3, pin 10, strength 2 on a transport that accepts every write. -/
theorem rk3562_set_drive_write_witness :
    3 ≤ 4 ∧
    (PIN_BANK_IOMUX_FLAGS_OFFSET 3 32 "gpio3" 2 2 2 2
        0x10040 0x10048 0x10050 0x10058).bank_num = ((3 : Nat) : Int) ∧
    10 < 32 ∧ 2 ≤ 7 ∧
    ((let w : RegWrite :=
        ⟨([0x20070, 0x200, 0x240, 0x10280, 0x102C0] : List Int).getD 3 0
            + ((10 / 2 : Nat) : Int) * 4,
         (0xFF <<< ((10 % 2) * 8 + 16)) ||| (((1 <<< (2 + 1)) - 1) <<< ((10 % 2) * 8))⟩;
      rk3562_set_drive quiet_regmap
          (PIN_BANK_IOMUX_FLAGS_OFFSET 3 32 "gpio3" 2 2 2 2 0x10040 0x10048 0x10050 0x10058)
          ((10 : Nat) : Int) ((2 : Nat) : Int) =
        some (quiet_regmap.answer quiet_regmap.log w,
              { quiet_regmap with log := quiet_regmap.log ++ [w] })) ∧
    (3 = 3 →
      rk3562_set_drive quiet_regmap
          (PIN_BANK_IOMUX_FLAGS_OFFSET 3 32 "gpio3" 2 2 2 2 0x10040 0x10048 0x10050 0x10058)
          10 2 =
        some (quiet_regmap.answer quiet_regmap.log ⟨0x10294, 0x00FF0007⟩,
              { quiet_regmap with log := quiet_regmap.log ++ [⟨0x10294, 0x00FF0007⟩] }))) :=
  ⟨by decide, rfl, by decide, by decide,
    rk3562_set_drive_write
      (PIN_BANK_IOMUX_FLAGS_OFFSET 3 32 "gpio3" 2 2 2 2 0x10040 0x10048 0x10050 0x10058)
      3 (by decide) rfl 10 (by decide) 2 (by decide) quiet_regmap⟩

/-- C4: the drive code `(1 << (N+1)) - 1` computed by `rk3562_set_drive` for a
strength level `N` in `0..7` is a unary code: its set bits are exactly the
lowest `N+1` bits, there are `N+1` of them, and it fits in the 8-bit field;
levels 0, 1, 2, 3 give 1, 3, 7, 15. -/
theorem rk3562_drv_code_unary (N : Nat) (hN : N ≤ 7) :
    (∃ d : Nat, rk3562_drv_code (N : Int) = some (d : Int) ∧
      (∀ i, d.testBit i = decide (i < N + 1)) ∧
      ((List.range 32).filter (fun i => d.testBit i)).length = N + 1 ∧
      d ≤ 255) ∧
    rk3562_drv_code 0 = some 1 ∧ rk3562_drv_code 1 = some 3 ∧
    rk3562_drv_code 2 = some 7 ∧ rk3562_drv_code 3 = some 15 := by
  refine ⟨⟨2 ^ (N + 1) - 1, ?_, ?_, ?_, ?_⟩, ?_, ?_, ?_, ?_⟩
  · rw [rk3562_drv_code_eq N (by omega)]
    have h1 : (1 : Nat) ≤ 2 ^ (N + 1) := Nat.one_le_two_pow
    push_cast [Nat.cast_sub h1]
    rfl
  · intro i
    exact Nat.testBit_two_pow_sub_one (N + 1) i
  · interval_cases N <;> decide
  · have : 2 ^ (N + 1) ≤ 2 ^ 8 := Nat.pow_le_pow_right (by norm_num) (by omega)
    omega
  · simpa using rk3562_drv_code_eq 0 (by norm_num)
  · simpa using rk3562_drv_code_eq 1 (by norm_num)
  · simpa using rk3562_drv_code_eq 2 (by norm_num)
  · simpa using rk3562_drv_code_eq 3 (by norm_num)

/-- Instance of C4 at strength level 5. -/
theorem rk3562_drv_code_unary_witness :
    5 ≤ 7 ∧
    ((∃ d : Nat, rk3562_drv_code ((5 : Nat) : Int) = some (d : Int) ∧
      (∀ i, d.testBit i = decide (i < 5 + 1)) ∧
      ((List.range 32).filter (fun i => d.testBit i)).length = 5 + 1 ∧
      d ≤ 255) ∧
    rk3562_drv_code 0 = some 1 ∧ rk3562_drv_code 1 = some 3 ∧
    rk3562_drv_code 2 = some 7 ∧ rk3562_drv_code 3 = some 15) :=
  ⟨by decide, rk3562_drv_code_unary 5 (by decide)⟩

/-- C5: for every bank and every pin, `rk3562_set_pull` called with the bias
mode `PIN_CONFIG_BIAS_PULL_PIN_DEFAULT` returns `-ENOTSUPP` and leaves the log
of writes as it was; the result is the same whatever the translation
collaborator is, so the collaborator is not consulted. -/
theorem rk3562_set_pull_default_rejected (x : Externals) (m : regmap)
    (bank : rockchip_pin_bank) (pin_num : Int) :
    rk3562_set_pull x m bank pin_num x.PIN_CONFIG_BIAS_PULL_PIN_DEFAULT
      = some (-x.ENOTSUPP, m) ∧
    ∀ t : Int → Int → Int,
      rk3562_set_pull ⟨x.ENOTSUPP, x.PIN_CONFIG_BIAS_PULL_PIN_DEFAULT, t⟩ m bank pin_num
        x.PIN_CONFIG_BIAS_PULL_PIN_DEFAULT = some (-x.ENOTSUPP, m) := by
  constructor
  · unfold rk3562_set_pull
    rw [if_pos rfl]
  · intro t
    unfold rk3562_set_pull
    rw [if_pos rfl]

/-- C6: for every bank number `b` in `0..4`, every pin in `0..31` and every
bias mode other than the default one for which the translation collaborator,
applied to the pull type of the pin's 8-pin group, returns a code `c >= 0`,
`rk3562_set_pull` issues exactly one write, to register `base(b) + (pin/8)*4`
with base `0x20020, 0x80, 0x90, 0x100A0, 0x100B0`, carrying
`(0x3 << ((pin%8)*2 + 16)) | (c << ((pin%8)*2))` as a 32-bit word, and returns
the result of that write.  For a code that fits the 2-bit field nothing is
truncated. -/
theorem rk3562_set_pull_write (x : Externals) (bank : rockchip_pin_bank) (b : Nat)
    (hb : b ≤ 4) (hbn : bank.bank_num = (b : Int)) (pin : Nat) (hp : pin < 32)
    (pull : Int) (hpull : pull ≠ x.PIN_CONFIG_BIAS_PULL_PIN_DEFAULT) (m : regmap) :
    ∃ ty, bank.pull_type.at ((pin / 8 : Nat) : Int) = some ty ∧
      ∀ c : Int, x.rockchip_translate_pull_value (to_u8 ty) pull = c → 0 ≤ c →
        let w : RegWrite :=
          ⟨([0x20020, 0x80, 0x90, 0x100A0, 0x100B0] : List Int).getD b 0
              + ((pin / 8 : Nat) : Int) * 4,
           (0x3 <<< ((pin % 8) * 2 + 16)) |||
             ((c.toNat <<< ((pin % 8) * 2)) % 4294967296)⟩
        rk3562_set_pull x m bank (pin : Int) pull =
          some (m.answer m.log w, { m with log := m.log ++ [w] }) ∧
        (c ≤ 3 →
          w.val = (0x3 <<< ((pin % 8) * 2 + 16)) ||| (c.toNat <<< ((pin % 8) * 2))) := by
  have hk : pin / 8 < 4 := by omega
  refine ⟨_, Arr4.at_natCast _ _ hk, ?_⟩
  intro c hc hc0 w
  have hreg : (rk3562_calc_pull_reg_and_bit bank (pin : Int)).1 =
      ([0x20020, 0x80, 0x90, 0x100A0, 0x100B0] : List Int).getD b 0
        + ((pin / 8 : Nat) : Int) * 4 := by
    rw [rk3562_calc_pull_reg_and_bit_eq, hbn]
    interval_cases b <;> simp
  constructor
  · rw [rk3562_set_pull_eq x m bank pin pull hpull, Arr4.at_natCast _ _ hk]
    simp only [Option.map_some', hc, if_neg (not_lt.mpr hc0), hreg]
  · intro hc3
    have h8 : pin % 8 < 8 := Nat.mod_lt _ (by norm_num)
    have hlt : c.toNat <<< ((pin % 8) * 2) < 4294967296 :=
      shiftLeft_lt_word _ _ 3 14 (by omega) (by omega) (by decide)
    simp only [w, Nat.mod_eq_of_lt hlt]

/-- Instance of C6 at bank 1, pin 9 and bias mode 3 of the example collaborator. -/
theorem rk3562_set_pull_write_witness :
    1 ≤ 4 ∧
    (PIN_BANK_IOMUX_FLAGS_OFFSET 1 32 "gpio1" 2 2 2 2 0 0x08 0x10 0x18).bank_num
      = ((1 : Nat) : Int) ∧
    9 < 32 ∧ (3 : Int) ≠ sample_externals.PIN_CONFIG_BIAS_PULL_PIN_DEFAULT ∧
    ∃ ty, (PIN_BANK_IOMUX_FLAGS_OFFSET 1 32 "gpio1" 2 2 2 2 0 0x08 0x10 0x18).pull_type.at
        ((9 / 8 : Nat) : Int) = some ty ∧
      ∀ c : Int, sample_externals.rockchip_translate_pull_value (to_u8 ty) 3 = c → 0 ≤ c →
        let w : RegWrite :=
          ⟨([0x20020, 0x80, 0x90, 0x100A0, 0x100B0] : List Int).getD 1 0
              + ((9 / 8 : Nat) : Int) * 4,
           (0x3 <<< ((9 % 8) * 2 + 16)) ||| ((c.toNat <<< ((9 % 8) * 2)) % 4294967296)⟩
        rk3562_set_pull sample_externals quiet_regmap
            (PIN_BANK_IOMUX_FLAGS_OFFSET 1 32 "gpio1" 2 2 2 2 0 0x08 0x10 0x18)
            ((9 : Nat) : Int) 3 =
          some (quiet_regmap.answer quiet_regmap.log w,
                { quiet_regmap with log := quiet_regmap.log ++ [w] }) ∧
        (c ≤ 3 →
          w.val = (0x3 <<< ((9 % 8) * 2 + 16)) ||| (c.toNat <<< ((9 % 8) * 2))) :=
  ⟨by decide, rfl, by decide, by decide,
    rk3562_set_pull_write sample_externals
      (PIN_BANK_IOMUX_FLAGS_OFFSET 1 32 "gpio1" 2 2 2 2 0 0x08 0x10 0x18)
      1 (by decide) rfl 9 (by decide) 3 (by decide) quiet_regmap⟩

/-- C7: for every bank, every pin in `0..31` and every bias mode other than
the default one, if the translation collaborator returns a negative value for
the pull type of the pin's 8-pin group and the requested bias,
`rk3562_set_pull` returns exactly that value and leaves the log of writes as it
was. -/
theorem rk3562_set_pull_translate_error (x : Externals) (bank : rockchip_pin_bank)
    (pin : Nat) (hp : pin < 32) (pull : Int)
    (hpull : pull ≠ x.PIN_CONFIG_BIAS_PULL_PIN_DEFAULT) (m : regmap) :
    ∃ ty, bank.pull_type.at ((pin / 8 : Nat) : Int) = some ty ∧
      (x.rockchip_translate_pull_value (to_u8 ty) pull < 0 →
        rk3562_set_pull x m bank (pin : Int) pull =
          some (x.rockchip_translate_pull_value (to_u8 ty) pull, m)) := by
  have hk : pin / 8 < 4 := by omega
  refine ⟨_, Arr4.at_natCast _ _ hk, ?_⟩
  intro hneg
  rw [rk3562_set_pull_eq x m bank pin pull hpull, Arr4.at_natCast _ _ hk]
  simp only [Option.map_some', if_pos hneg]

/-- Instance of C7 at bank 2, pin 20 and bias mode 7, which the example
collaborator refuses with `-22`. -/
theorem rk3562_set_pull_translate_error_witness :
    20 < 32 ∧ (7 : Int) ≠ sample_externals.PIN_CONFIG_BIAS_PULL_PIN_DEFAULT ∧
    ∃ ty, (PIN_BANK_IOMUX_FLAGS_OFFSET 2 32 "gpio2" 2 2 2 2 0x20 0 0 0).pull_type.at
        ((20 / 8 : Nat) : Int) = some ty ∧
      (sample_externals.rockchip_translate_pull_value (to_u8 ty) 7 < 0 →
        rk3562_set_pull sample_externals quiet_regmap
            (PIN_BANK_IOMUX_FLAGS_OFFSET 2 32 "gpio2" 2 2 2 2 0x20 0 0 0)
            ((20 : Nat) : Int) 7 =
          some (sample_externals.rockchip_translate_pull_value (to_u8 ty) 7, quiet_regmap)) :=
  ⟨by decide, by decide,
    rk3562_set_pull_translate_error sample_externals
      (PIN_BANK_IOMUX_FLAGS_OFFSET 2 32 "gpio2" 2 2 2 2 0x20 0 0 0)
      20 (by decide) 7 (by decide) quiet_regmap⟩

/-- C8: for every bank number `b` in `0..4`, every pin in `0..31` and every
enable flag in `{0, 1}`, `rk3562_set_schmitt` issues exactly one write, to
register `base(b) + (pin/8)*4` with base `0x20030, 0xC0, 0xD0, 0x100E0,
0x100F0`, carrying `(0x3 << ((pin%8)*2 + 16)) | (enable << ((pin%8)*2))`, and
returns the result of that write. -/
theorem rk3562_set_schmitt_write (bank : rockchip_pin_bank) (b : Nat) (hb : b ≤ 4)
    (hbn : bank.bank_num = (b : Int)) (pin : Nat) (_hp : pin < 32) (enable : Nat)
    (he : enable ≤ 1) (m : regmap) :
    let w : RegWrite :=
      ⟨([0x20030, 0xC0, 0xD0, 0x100E0, 0x100F0] : List Int).getD b 0
          + ((pin / 8 : Nat) : Int) * 4,
       (0x3 <<< ((pin % 8) * 2 + 16)) ||| (enable <<< ((pin % 8) * 2))⟩
    rk3562_set_schmitt m bank (pin : Int) (enable : Int) =
      some (m.answer m.log w, { m with log := m.log ++ [w] }) := by
  intro w
  have hreg : (rk3562_calc_schmitt_reg_and_bit bank (pin : Int)).2.1 =
      ([0x20030, 0xC0, 0xD0, 0x100E0, 0x100F0] : List Int).getD b 0
        + ((pin / 8 : Nat) : Int) * 4 := by
    rw [rk3562_calc_schmitt_reg_and_bit_eq, hbn]
    interval_cases b <;> simp
  have h8 : pin % 8 < 8 := Nat.mod_lt _ (by norm_num)
  have hlt : enable <<< ((pin % 8) * 2) < 4294967296 :=
    shiftLeft_lt_word _ _ 3 14 (by omega) (by omega) (by decide)
  rw [rk3562_set_schmitt_eq m bank pin enable, Nat.mod_eq_of_lt hlt, hreg]

/-- Instance of C8 at bank 4, pin 11 with the trigger enabled. -/
theorem rk3562_set_schmitt_write_witness :
    4 ≤ 4 ∧
    (PIN_BANK_IOMUX_FLAGS_OFFSET 4 16 "gpio4" 2 2 0 0 0x10060 0x10068 0 0).bank_num
      = ((4 : Nat) : Int) ∧
    11 < 32 ∧ 1 ≤ 1 ∧
    (let w : RegWrite :=
      ⟨([0x20030, 0xC0, 0xD0, 0x100E0, 0x100F0] : List Int).getD 4 0
          + ((11 / 8 : Nat) : Int) * 4,
       (0x3 <<< ((11 % 8) * 2 + 16)) ||| (1 <<< ((11 % 8) * 2))⟩;
    rk3562_set_schmitt quiet_regmap
        (PIN_BANK_IOMUX_FLAGS_OFFSET 4 16 "gpio4" 2 2 0 0 0x10060 0x10068 0 0)
        ((11 : Nat) : Int) ((1 : Nat) : Int) =
      some (quiet_regmap.answer quiet_regmap.log w,
            { quiet_regmap with log := quiet_regmap.log ++ [w] })) :=
  ⟨by decide, rfl, by decide, by decide,
    rk3562_set_schmitt_write
      (PIN_BANK_IOMUX_FLAGS_OFFSET 4 16 "gpio4" 2 2 0 0 0x10060 0x10068 0 0)
      4 (by decide) rfl 11 (by decide) 1 (by decide) quiet_regmap⟩

/-- C9 as stated fails: with strength level 8 the drive write of pin 0 has bit 8
set in its lower half, outside the pin's field `0xFF`, and the drive write of
pin 1 has upper half `0xFF01` instead of `0xFF00`; with enable value 4 the
Schmitt write of pin 0 has bit 2 set, outside the pin's field `0x3`. -/
theorem masked_write_escapes_field :
    (rk3562_set_drive quiet_regmap
        (PIN_BANK_IOMUX_FLAGS_OFFSET 0 32 "gpio0" 2 2 2 2 0x20000 0x20008 0x20010 0x20018)
        0 8 = some (0, { quiet_regmap with log := [⟨0x20070, 0x00FF01FF⟩] }) ∧
      ¬ write_within_field 0xFF 0 0x00FF01FF) ∧
    (rk3562_set_drive quiet_regmap
        (PIN_BANK_IOMUX_FLAGS_OFFSET 0 32 "gpio0" 2 2 2 2 0x20000 0x20008 0x20010 0x20018)
        1 8 = some (0, { quiet_regmap with log := [⟨0x20070, 0xFF01FF00⟩] }) ∧
      ¬ write_within_field 0xFF 8 0xFF01FF00) ∧
    (rk3562_set_schmitt quiet_regmap
        (PIN_BANK_IOMUX_FLAGS_OFFSET 0 32 "gpio0" 2 2 2 2 0x20000 0x20008 0x20010 0x20018)
        0 4 = some (0, { quiet_regmap with log := [⟨0x20030, 0x00030004⟩] }) ∧
      ¬ write_within_field 0x3 0 0x00030004) := by
  refine ⟨⟨?_, by decide⟩, ⟨?_, by decide⟩, ⟨?_, by decide⟩⟩
  · have e := rk3562_set_drive_eq quiet_regmap
      (PIN_BANK_IOMUX_FLAGS_OFFSET 0 32 "gpio0" 2 2 2 2 0x20000 0x20008 0x20010 0x20018)
      0 8 (by norm_num)
    rw [rk3562_calc_drv_reg_and_bit_eq] at e
    simpa [quiet_regmap, PIN_BANK_IOMUX_FLAGS_OFFSET] using e
  · have e := rk3562_set_drive_eq quiet_regmap
      (PIN_BANK_IOMUX_FLAGS_OFFSET 0 32 "gpio0" 2 2 2 2 0x20000 0x20008 0x20010 0x20018)
      1 8 (by norm_num)
    rw [rk3562_calc_drv_reg_and_bit_eq] at e
    simpa [quiet_regmap, PIN_BANK_IOMUX_FLAGS_OFFSET] using e
  · have e := rk3562_set_schmitt_eq quiet_regmap
      (PIN_BANK_IOMUX_FLAGS_OFFSET 0 32 "gpio0" 2 2 2 2 0x20000 0x20008 0x20010 0x20018)
      0 4
    rw [rk3562_calc_schmitt_reg_and_bit_eq] at e
    simpa [quiet_regmap, PIN_BANK_IOMUX_FLAGS_OFFSET] using e

/-- C9, amended: for every bank, every pin in `0..31`, every mux code (any
integer), every strength level in `0..7` and every enable value in `0..3`, the
property write issued by `rk3562_set_mux`, `rk3562_set_drive` and
`rk3562_set_schmitt` has upper 16 bits equal to exactly the field mask (`0xF`,
`0xFF`, `0x3`) shifted to the pin's bit position, and lower 16 bits that are
zero outside that same field. -/
theorem masked_write_within_field (bank : rockchip_pin_bank) (pin : Nat) (hp : pin < 32)
    (mux : Int) (strength : Nat) (hs : strength ≤ 7) (enable : Nat) (he : enable ≤ 3)
    (m : regmap) :
    (∃ pre r v,
      rk3562_set_mux m bank (pin : Int) mux =
        some (m.answer (m.log ++ pre) ⟨r, v⟩, { m with log := m.log ++ pre ++ [⟨r, v⟩] }) ∧
      write_within_field 0xF ((pin % 4) * 4) v) ∧
    (∃ r v,
      rk3562_set_drive m bank (pin : Int) (strength : Int) =
        some (m.answer m.log ⟨r, v⟩, { m with log := m.log ++ [⟨r, v⟩] }) ∧
      write_within_field 0xFF ((pin % 2) * 8) v) ∧
    (∃ r v,
      rk3562_set_schmitt m bank (pin : Int) (enable : Int) =
        some (m.answer m.log ⟨r, v⟩, { m with log := m.log ++ [⟨r, v⟩] }) ∧
      write_within_field 0x3 ((pin % 8) * 2) v) := by
  refine ⟨?_, ?_, ?_⟩
  · have hk : pin / 8 < 4 := by omega
    refine ⟨(if bank.bank_num = 1 ∧ (pin = 13 ∨ pin = 14) then
          [⟨0x504, if mux = 1 then 0x10001 else 0x10000⟩] else []),
      (if pin / 8 = 0 then bank.iomux.e0 else if pin / 8 = 1 then bank.iomux.e1
        else if pin / 8 = 2 then bank.iomux.e2 else bank.iomux.e3).offset
        + (if 4 ≤ pin % 8 then 4 else 0),
      (0xF <<< ((pin % 4) * 4 + 16)) ||| ((mux % 16).toNat <<< ((pin % 4) * 4)), ?_, ?_⟩
    · rw [rk3562_set_mux_eq m bank pin hp mux, Arr4.at_natCast _ _ hk]
      rfl
    · have hx0 : 0 ≤ mux % 16 := Int.emod_nonneg _ (by norm_num)
      have hx1 : mux % 16 < 16 := Int.emod_lt_of_pos _ (by norm_num)
      have hx : (mux % 16).toNat < 16 := by omega
      have hq : pin % 4 < 4 := Nat.mod_lt _ (by norm_num)
      generalize (mux % 16).toNat = x at hx
      generalize pin % 4 = q at hq
      interval_cases q <;> interval_cases x <;> decide
  · refine ⟨_, _, rk3562_set_drive_eq m bank pin strength (by omega), ?_⟩
    have hq : pin % 2 < 2 := Nat.mod_lt _ (by norm_num)
    generalize pin % 2 = q at hq
    interval_cases q <;> interval_cases strength <;> decide
  · refine ⟨_, _, rk3562_set_schmitt_eq m bank pin enable, ?_⟩
    have hq : pin % 8 < 8 := Nat.mod_lt _ (by norm_num)
    generalize pin % 8 = q at hq
    interval_cases q <;> interval_cases enable <;> decide

/-- Instance of amended C9 at bank 3, pin 10, mux 3, strength 2, enable 1. -/
theorem masked_write_within_field_witness :
    10 < 32 ∧ 2 ≤ 7 ∧ 1 ≤ 3 ∧
    ((∃ pre r v,
      rk3562_set_mux quiet_regmap
          (PIN_BANK_IOMUX_FLAGS_OFFSET 3 32 "gpio3" 2 2 2 2 0x10040 0x10048 0x10050 0x10058)
          ((10 : Nat) : Int) 3 =
        some (quiet_regmap.answer (quiet_regmap.log ++ pre) ⟨r, v⟩,
              { quiet_regmap with log := quiet_regmap.log ++ pre ++ [⟨r, v⟩] }) ∧
      write_within_field 0xF ((10 % 4) * 4) v) ∧
    (∃ r v,
      rk3562_set_drive quiet_regmap
          (PIN_BANK_IOMUX_FLAGS_OFFSET 3 32 "gpio3" 2 2 2 2 0x10040 0x10048 0x10050 0x10058)
          ((10 : Nat) : Int) ((2 : Nat) : Int) =
        some (quiet_regmap.answer quiet_regmap.log ⟨r, v⟩,
              { quiet_regmap with log := quiet_regmap.log ++ [⟨r, v⟩] }) ∧
      write_within_field 0xFF ((10 % 2) * 8) v) ∧
    (∃ r v,
      rk3562_set_schmitt quiet_regmap
          (PIN_BANK_IOMUX_FLAGS_OFFSET 3 32 "gpio3" 2 2 2 2 0x10040 0x10048 0x10050 0x10058)
          ((10 : Nat) : Int) ((1 : Nat) : Int) =
        some (quiet_regmap.answer quiet_regmap.log ⟨r, v⟩,
              { quiet_regmap with log := quiet_regmap.log ++ [⟨r, v⟩] }) ∧
      write_within_field 0x3 ((10 % 8) * 2) v)) :=
  ⟨by decide, by decide, by decide,
    masked_write_within_field
      (PIN_BANK_IOMUX_FLAGS_OFFSET 3 32 "gpio3" 2 2 2 2 0x10040 0x10048 0x10050 0x10058)
      10 (by decide) 3 2 (by decide) 1 (by decide) quiet_regmap⟩

/-- C10 at its failing input: on bank 1, pin 13, mux 1, with a transport that
refuses the debug-strap write to `0x504` with `-5` and accepts the iomux
write, `rk3562_set_mux` issues both writes and returns 0, the result of the
iomux write; the failure code of the strap write is dropped. -/
theorem rk3562_set_mux_strap_failure_dropped :
    strap_fail_regmap.answer strap_fail_regmap.log ⟨0x504, 0x10001⟩ = -5 ∧
    rk3562_set_mux strap_fail_regmap
        (PIN_BANK_IOMUX_FLAGS_OFFSET 1 32 "gpio1" 2 2 2 2 0 0x08 0x10 0x18) 13 1 =
      some (0, { strap_fail_regmap with
                  log := [⟨0x504, 0x10001⟩, ⟨0xC, 0x00F00010⟩] }) := by
  constructor
  · simp [strap_fail_regmap]
  · have e := rk3562_set_mux_eq strap_fail_regmap
      (PIN_BANK_IOMUX_FLAGS_OFFSET 1 32 "gpio1" 2 2 2 2 0 0x08 0x10 0x18) 13 (by norm_num) 1
    simp only [Nat.cast_ofNat] at e
    rw [e]
    simp [strap_fail_regmap, PIN_BANK_IOMUX_FLAGS_OFFSET, Arr4.at]

/-! ## Register and bit position of the mux translator -/

theorem rk3562_mux_reg_and_bit_eq (bank : rockchip_pin_bank) (p : Nat) :
    rk3562_mux_reg_and_bit bank (p : Int) =
      (bank.iomux.at ((p / 8 : Nat) : Int)).map (fun iom =>
        (iom.offset + (if 4 ≤ p % 8 then 4 else 0), (((p % 4) * 4 : Nat) : Int))) := by
  have h8 : c_div (p : Int) 8 = ((p / 8 : Nat) : Int) := by
    simpa using c_div_natCast p 8
  have hm8 : c_mod (p : Int) 8 = ((p % 8 : Nat) : Int) := by
    simpa using c_mod_natCast p 8
  have hm4 : c_mod (p : Int) 4 = ((p % 4 : Nat) : Int) := by
    simpa using c_mod_natCast p 4
  have hb4 : p % 4 < 4 := Nat.mod_lt _ (by norm_num)
  have hbit : to_u8 (((p % 4 : Nat) : Int) * 4) = (((p % 4) * 4 : Nat) : Int) := by
    have := to_u8_natCast ((p % 4) * 4) (by omega)
    push_cast at this ⊢
    exact this
  unfold rk3562_mux_reg_and_bit
  rw [h8, hm8, hm4, hbit]
  cases hio : bank.iomux.at ((p / 8 : Nat) : Int) with
  | none => simp only [hio, Option.bind_eq_bind, Option.none_bind, Option.map_none']
  | some iom =>
    simp only [hio, Option.bind_eq_bind, Option.some_bind, Option.map_some', Option.pure_def]
    by_cases h4 : 4 ≤ p % 8
    · rw [if_pos (by omega), if_pos h4]
    · rw [if_neg (by omega), if_neg h4]; simp

/-- The write of `rk3562_set_mux` goes to the register, and its two halves
are shifted by the bit position, that `rk3562_mux_reg_and_bit` computes. -/
theorem rk3562_set_mux_reg_and_bit (m : regmap) (bank : rockchip_pin_bank) (pin mux : Int) :
    rk3562_set_mux m bank pin mux =
      (rk3562_mux_reg_and_bit bank pin).bind (fun rb =>
        (c_shl 0xf (rb.2 + 16)).bind (fun hi =>
          (c_shl (c_and mux 0xf) rb.2).bind (fun lo =>
            some (regmap_write
              (if bank.bank_num = 1 then
                if pin = 13 ∨ pin = 14 then
                  if mux = 1 then (regmap_write m 0x504 0x10001).2
                  else (regmap_write m 0x504 0x10000).2
                else m
              else m) rb.1 (to_u32 hi ||| to_u32 lo))))) := by
  unfold rk3562_set_mux rk3562_mux_reg_and_bit
  cases hio : bank.iomux.at (c_div pin 8) with
  | none => simp only [hio, Option.bind_eq_bind, Option.none_bind]
  | some iom =>
    simp only [hio, Option.bind_eq_bind, Option.some_bind, Option.pure_def]

/-- The iomux register of a valid pin of the static table, bank by bank. -/
theorem rk3562_mux_reg_and_bit_table (w4 : Int) (bank : rockchip_pin_bank)
    (hb : bank ∈ rk3562_pin_banks w4) (p : Nat) (hp : p < bank.nr_pins) :
    ∃ b : Nat, bank.bank_num = (b : Int) ∧ b ≤ 4 ∧ p < (if b = 4 then 16 else 32) ∧
      rk3562_mux_reg_and_bit bank (p : Int) =
        some ((if b = 0 then 0x20000 + 8 * ((p / 8 : Nat) : Int)
               else if b = 1 then 8 * ((p / 8 : Nat) : Int)
               else if b = 2 then (if p / 8 = 0 then 0x20 else 0)
               else if b = 3 then 0x10040 + 8 * ((p / 8 : Nat) : Int)
               else 0x10060 + 8 * ((p / 8 : Nat) : Int))
              + (if 4 ≤ p % 8 then 4 else 0),
              (((p % 4) * 4 : Nat) : Int)) := by
  simp only [rk3562_pin_banks, List.mem_cons, List.mem_singleton, List.not_mem_nil,
    or_false] at hb
  rw [rk3562_mux_reg_and_bit_eq]
  rcases hb with rfl | rfl | rfl | rfl | rfl
  · refine ⟨0, rfl, by norm_num, by simpa [PIN_BANK_IOMUX_FLAGS_OFFSET] using hp, ?_⟩
    simp only [PIN_BANK_IOMUX_FLAGS_OFFSET] at hp ⊢
    have hk : p / 8 < 4 := by omega
    rw [Arr4.at_natCast _ _ hk]
    generalize p / 8 = k at hk
    interval_cases k <;> simp
  · refine ⟨1, rfl, by norm_num, by simpa [PIN_BANK_IOMUX_FLAGS_OFFSET] using hp, ?_⟩
    simp only [PIN_BANK_IOMUX_FLAGS_OFFSET] at hp ⊢
    have hk : p / 8 < 4 := by omega
    rw [Arr4.at_natCast _ _ hk]
    generalize p / 8 = k at hk
    interval_cases k <;> simp
  · refine ⟨2, rfl, by norm_num, by simpa [PIN_BANK_IOMUX_FLAGS_OFFSET] using hp, ?_⟩
    simp only [PIN_BANK_IOMUX_FLAGS_OFFSET] at hp ⊢
    have hk : p / 8 < 4 := by omega
    rw [Arr4.at_natCast _ _ hk]
    generalize p / 8 = k at hk
    interval_cases k <;> simp
  · refine ⟨3, rfl, by norm_num, by simpa [PIN_BANK_IOMUX_FLAGS_OFFSET] using hp, ?_⟩
    simp only [PIN_BANK_IOMUX_FLAGS_OFFSET] at hp ⊢
    have hk : p / 8 < 4 := by omega
    rw [Arr4.at_natCast _ _ hk]
    generalize p / 8 = k at hk
    interval_cases k <;> simp
  · refine ⟨4, rfl, by norm_num, by simpa [PIN_BANK_IOMUX_FLAGS_OFFSET] using hp, ?_⟩
    simp only [PIN_BANK_IOMUX_FLAGS_OFFSET] at hp ⊢
    have hk : p / 8 < 2 := by omega
    rw [Arr4.at_natCast _ _ (by omega)]
    generalize p / 8 = k at hk
    interval_cases k <;> simp

/-- A bank of the static table is determined by its bank number, which is in
`0..4`, and its pin count is 16 for bank 4 and 32 otherwise. -/
theorem rk3562_pin_banks_bank_num (w4 : Int) (b1 b2 : rockchip_pin_bank)
    (h1 : b1 ∈ rk3562_pin_banks w4) (h2 : b2 ∈ rk3562_pin_banks w4) :
    (∃ b : Nat, b1.bank_num = (b : Int) ∧ b ≤ 4 ∧ b1.nr_pins = (if b = 4 then 16 else 32)) ∧
    (b1.bank_num = b2.bank_num → b1 = b2) := by
  simp only [rk3562_pin_banks, List.mem_cons, List.mem_singleton, List.not_mem_nil,
    or_false] at h1 h2
  constructor
  · rcases h1 with rfl | rfl | rfl | rfl | rfl
    · exact ⟨0, rfl, by norm_num, rfl⟩
    · exact ⟨1, rfl, by norm_num, rfl⟩
    · exact ⟨2, rfl, by norm_num, rfl⟩
    · exact ⟨3, rfl, by norm_num, rfl⟩
    · exact ⟨4, rfl, by norm_num, rfl⟩
  · rcases h1 with rfl | rfl | rfl | rfl | rfl <;>
      rcases h2 with rfl | rfl | rfl | rfl | rfl <;>
      simp [PIN_BANK_IOMUX_FLAGS_OFFSET]

/-- C11: for each of the drive-strength, pull and Schmitt translators, the map
from a valid (bank, pin) pair of the static table (pin below the bank's pin
count) to the (register offset, bit position) computed by
`rk3562_calc_drv_reg_and_bit`, `rk3562_calc_pull_reg_and_bit` and
`rk3562_calc_schmitt_reg_and_bit` is injective. -/
theorem rk3562_property_fields_injective (w4 : Int) (b1 b2 : rockchip_pin_bank)
    (h1 : b1 ∈ rk3562_pin_banks w4) (h2 : b2 ∈ rk3562_pin_banks w4) (p1 p2 : Nat)
    (hp1 : p1 < b1.nr_pins) (hp2 : p2 < b2.nr_pins) :
    (rk3562_calc_drv_reg_and_bit b1 (p1 : Int) = rk3562_calc_drv_reg_and_bit b2 (p2 : Int) →
      b1 = b2 ∧ p1 = p2) ∧
    (rk3562_calc_pull_reg_and_bit b1 (p1 : Int) = rk3562_calc_pull_reg_and_bit b2 (p2 : Int) →
      b1 = b2 ∧ p1 = p2) ∧
    ((rk3562_calc_schmitt_reg_and_bit b1 (p1 : Int)).2 =
        (rk3562_calc_schmitt_reg_and_bit b2 (p2 : Int)).2 →
      b1 = b2 ∧ p1 = p2) := by
  obtain ⟨⟨n1, hn1, hle1, hc1⟩, hsame⟩ := rk3562_pin_banks_bank_num w4 b1 b2 h1 h2
  obtain ⟨⟨n2, hn2, hle2, hc2⟩, _⟩ := rk3562_pin_banks_bank_num w4 b2 b1 h2 h1
  rw [hc1] at hp1
  rw [hc2] at hp2
  have key : n1 = n2 ∧ p1 = p2 → b1 = b2 ∧ p1 = p2 :=
    fun h => ⟨hsame (by rw [hn1, hn2, h.1]), h.2⟩
  refine ⟨?_, ?_, ?_⟩
  · rw [rk3562_calc_drv_reg_and_bit_eq, rk3562_calc_drv_reg_and_bit_eq, hn1, hn2]
    intro h
    apply key
    simp only [Prod.mk.injEq] at h
    obtain ⟨hr, hbit⟩ := h
    interval_cases n1 <;> interval_cases n2 <;> simp at hr hp1 hp2 <;> omega
  · rw [rk3562_calc_pull_reg_and_bit_eq, rk3562_calc_pull_reg_and_bit_eq, hn1, hn2]
    intro h
    apply key
    simp only [Prod.mk.injEq] at h
    obtain ⟨hr, hbit⟩ := h
    interval_cases n1 <;> interval_cases n2 <;> simp at hr hp1 hp2 <;> omega
  · rw [rk3562_calc_schmitt_reg_and_bit_eq, rk3562_calc_schmitt_reg_and_bit_eq, hn1, hn2]
    intro h
    apply key
    simp only [Prod.mk.injEq] at h
    obtain ⟨hr, hbit⟩ := h
    interval_cases n1 <;> interval_cases n2 <;> simp at hr hp1 hp2 <;> omega

/-- Instance of C11 at bank 0, pin 5 and bank 3, pin 10. -/
theorem rk3562_property_fields_injective_witness :
    PIN_BANK_IOMUX_FLAGS_OFFSET 0 32 "gpio0" 2 2 2 2 0x20000 0x20008 0x20010 0x20018
        ∈ rk3562_pin_banks 2 ∧
    PIN_BANK_IOMUX_FLAGS_OFFSET 3 32 "gpio3" 2 2 2 2 0x10040 0x10048 0x10050 0x10058
        ∈ rk3562_pin_banks 2 ∧
    5 < (PIN_BANK_IOMUX_FLAGS_OFFSET 0 32 "gpio0" 2 2 2 2
          0x20000 0x20008 0x20010 0x20018).nr_pins ∧
    10 < (PIN_BANK_IOMUX_FLAGS_OFFSET 3 32 "gpio3" 2 2 2 2
          0x10040 0x10048 0x10050 0x10058).nr_pins ∧
    ((rk3562_calc_drv_reg_and_bit
          (PIN_BANK_IOMUX_FLAGS_OFFSET 0 32 "gpio0" 2 2 2 2 0x20000 0x20008 0x20010 0x20018)
          ((5 : Nat) : Int) =
        rk3562_calc_drv_reg_and_bit
          (PIN_BANK_IOMUX_FLAGS_OFFSET 3 32 "gpio3" 2 2 2 2 0x10040 0x10048 0x10050 0x10058)
          ((10 : Nat) : Int) →
      PIN_BANK_IOMUX_FLAGS_OFFSET 0 32 "gpio0" 2 2 2 2 0x20000 0x20008 0x20010 0x20018 =
        PIN_BANK_IOMUX_FLAGS_OFFSET 3 32 "gpio3" 2 2 2 2 0x10040 0x10048 0x10050 0x10058 ∧
      5 = 10) ∧
    (rk3562_calc_pull_reg_and_bit
          (PIN_BANK_IOMUX_FLAGS_OFFSET 0 32 "gpio0" 2 2 2 2 0x20000 0x20008 0x20010 0x20018)
          ((5 : Nat) : Int) =
        rk3562_calc_pull_reg_and_bit
          (PIN_BANK_IOMUX_FLAGS_OFFSET 3 32 "gpio3" 2 2 2 2 0x10040 0x10048 0x10050 0x10058)
          ((10 : Nat) : Int) →
      PIN_BANK_IOMUX_FLAGS_OFFSET 0 32 "gpio0" 2 2 2 2 0x20000 0x20008 0x20010 0x20018 =
        PIN_BANK_IOMUX_FLAGS_OFFSET 3 32 "gpio3" 2 2 2 2 0x10040 0x10048 0x10050 0x10058 ∧
      5 = 10) ∧
    ((rk3562_calc_schmitt_reg_and_bit
          (PIN_BANK_IOMUX_FLAGS_OFFSET 0 32 "gpio0" 2 2 2 2 0x20000 0x20008 0x20010 0x20018)
          ((5 : Nat) : Int)).2 =
        (rk3562_calc_schmitt_reg_and_bit
          (PIN_BANK_IOMUX_FLAGS_OFFSET 3 32 "gpio3" 2 2 2 2 0x10040 0x10048 0x10050 0x10058)
          ((10 : Nat) : Int)).2 →
      PIN_BANK_IOMUX_FLAGS_OFFSET 0 32 "gpio0" 2 2 2 2 0x20000 0x20008 0x20010 0x20018 =
        PIN_BANK_IOMUX_FLAGS_OFFSET 3 32 "gpio3" 2 2 2 2 0x10040 0x10048 0x10050 0x10058 ∧
      5 = 10)) :=
  ⟨List.Mem.head _,
    List.Mem.tail _ (List.Mem.tail _ (List.Mem.tail _ (List.Mem.head _))),
    by decide, by decide,
    rk3562_property_fields_injective 2 _ _ (List.Mem.head _)
      (List.Mem.tail _ (List.Mem.tail _ (List.Mem.tail _ (List.Mem.head _))))
      5 10 (by decide) (by decide)⟩

/-- C12 at its failing input: bank 1, pin 0 and bank 2, pin 8 are two distinct
valid (bank, pin) pairs of the static table, and `rk3562_set_mux` gives both
the register offset 0 and the bit position 0; with mux code 1 both calls write
`0x000F0001` to register `0x0`. -/
theorem rk3562_mux_field_collision :
    PIN_BANK_IOMUX_FLAGS_OFFSET 1 32 "gpio1" 2 2 2 2 0 0x08 0x10 0x18 ∈ rk3562_pin_banks 2 ∧
    PIN_BANK_IOMUX_FLAGS_OFFSET 2 32 "gpio2" 2 2 2 2 0x20 0 0 0 ∈ rk3562_pin_banks 2 ∧
    0 < (PIN_BANK_IOMUX_FLAGS_OFFSET 1 32 "gpio1" 2 2 2 2 0 0x08 0x10 0x18).nr_pins ∧
    8 < (PIN_BANK_IOMUX_FLAGS_OFFSET 2 32 "gpio2" 2 2 2 2 0x20 0 0 0).nr_pins ∧
    rk3562_mux_reg_and_bit
        (PIN_BANK_IOMUX_FLAGS_OFFSET 1 32 "gpio1" 2 2 2 2 0 0x08 0x10 0x18) 0 = some (0, 0) ∧
    rk3562_mux_reg_and_bit
        (PIN_BANK_IOMUX_FLAGS_OFFSET 2 32 "gpio2" 2 2 2 2 0x20 0 0 0) 8 = some (0, 0) ∧
    rk3562_set_mux quiet_regmap
        (PIN_BANK_IOMUX_FLAGS_OFFSET 1 32 "gpio1" 2 2 2 2 0 0x08 0x10 0x18) 0 1 =
      some (0, { quiet_regmap with log := [⟨0x0, 0x000F0001⟩] }) ∧
    rk3562_set_mux quiet_regmap
        (PIN_BANK_IOMUX_FLAGS_OFFSET 2 32 "gpio2" 2 2 2 2 0x20 0 0 0) 8 1 =
      some (0, { quiet_regmap with log := [⟨0x0, 0x000F0001⟩] }) := by
  refine ⟨List.Mem.tail _ (List.Mem.head _),
    List.Mem.tail _ (List.Mem.tail _ (List.Mem.head _)), by decide, by decide, ?_, ?_, ?_, ?_⟩
  · have e := rk3562_mux_reg_and_bit_eq
      (PIN_BANK_IOMUX_FLAGS_OFFSET 1 32 "gpio1" 2 2 2 2 0 0x08 0x10 0x18) 0
    simpa [PIN_BANK_IOMUX_FLAGS_OFFSET, Arr4.at] using e
  · have e := rk3562_mux_reg_and_bit_eq
      (PIN_BANK_IOMUX_FLAGS_OFFSET 2 32 "gpio2" 2 2 2 2 0x20 0 0 0) 8
    simpa [PIN_BANK_IOMUX_FLAGS_OFFSET, Arr4.at] using e
  · have e := rk3562_set_mux_eq quiet_regmap
      (PIN_BANK_IOMUX_FLAGS_OFFSET 1 32 "gpio1" 2 2 2 2 0 0x08 0x10 0x18) 0 (by norm_num) 1
    simp only [Nat.cast_ofNat, Nat.cast_zero] at e
    rw [e]
    simp [quiet_regmap, PIN_BANK_IOMUX_FLAGS_OFFSET, Arr4.at]
  · have e := rk3562_set_mux_eq quiet_regmap
      (PIN_BANK_IOMUX_FLAGS_OFFSET 2 32 "gpio2" 2 2 2 2 0x20 0 0 0) 8 (by norm_num) 1
    simp only [Nat.cast_ofNat] at e
    rw [e]
    simp [quiet_regmap, PIN_BANK_IOMUX_FLAGS_OFFSET, Arr4.at]

/-- C13 as stated fails: on bank 0, pin 8, `rk3562_set_mux` uses register
`0x20008`, the offset of the second 8-pin group, while
`iomux_base + 4*(pin/8) + (4 if pin%8 >= 4 else 0)` is `0x20004`. -/
theorem rk3562_mux_reg_stride_four_fails :
    PIN_BANK_IOMUX_FLAGS_OFFSET 0 32 "gpio0" 2 2 2 2 0x20000 0x20008 0x20010 0x20018
        ∈ rk3562_pin_banks 2 ∧
    8 < (PIN_BANK_IOMUX_FLAGS_OFFSET 0 32 "gpio0" 2 2 2 2
          0x20000 0x20008 0x20010 0x20018).nr_pins ∧
    rk3562_mux_reg_and_bit
        (PIN_BANK_IOMUX_FLAGS_OFFSET 0 32 "gpio0" 2 2 2 2 0x20000 0x20008 0x20010 0x20018)
        8 = some (0x20008, 0) ∧
    (0x20008 : Int) ≠
      (PIN_BANK_IOMUX_FLAGS_OFFSET 0 32 "gpio0" 2 2 2 2
          0x20000 0x20008 0x20010 0x20018).iomux.e0.offset
        + 4 * ((8 / 8 : Nat) : Int) + (if 4 ≤ 8 % 8 then 4 else 0) := by
  refine ⟨List.Mem.head _, by decide, ?_, by decide⟩
  have e := rk3562_mux_reg_and_bit_eq
    (PIN_BANK_IOMUX_FLAGS_OFFSET 0 32 "gpio0" 2 2 2 2 0x20000 0x20008 0x20010 0x20018) 8
  simpa [PIN_BANK_IOMUX_FLAGS_OFFSET, Arr4.at] using e

/-- C13, amended: for every bank of the static table and every pin below the
bank's pin count, the bit position used by `rk3562_set_mux` is `(pin%4)*4`;
on banks 0, 1, 3 and 4, and on bank 2 for pins `0..7`, the register is
`iomux_base + 8*(pin/8) + (4 if pin%8 >= 4 else 0)`, where `iomux_base` is the
offset of the bank's first 8-pin group. -/
theorem rk3562_mux_reg_and_bit_formula (w4 : Int) (bank : rockchip_pin_bank)
    (hb : bank ∈ rk3562_pin_banks w4) (pin : Nat) (hp : pin < bank.nr_pins) :
    ∃ reg, rk3562_mux_reg_and_bit bank (pin : Int) = some (reg, (((pin % 4) * 4 : Nat) : Int)) ∧
      (bank.bank_num ≠ 2 ∨ pin < 8 →
        reg = bank.iomux.e0.offset + 8 * ((pin / 8 : Nat) : Int)
                + (if 4 ≤ pin % 8 then 4 else 0)) := by
  obtain ⟨b, hbn, hb4, hpb, he⟩ := rk3562_mux_reg_and_bit_table w4 bank hb pin hp
  refine ⟨_, he, ?_⟩
  intro hcase
  simp only [rk3562_pin_banks, List.mem_cons, List.mem_singleton, List.not_mem_nil,
    or_false] at hb
  rcases hb with rfl | rfl | rfl | rfl | rfl <;>
    simp only [PIN_BANK_IOMUX_FLAGS_OFFSET] at hbn hcase ⊢ <;>
    interval_cases b <;> simp at hbn
  · simp
  · simp
  · have h8 : pin / 8 = 0 := by
      rcases hcase with h | h
      · exact absurd rfl h
      · omega
    simp [h8]
  · simp
  · simp

/-- Instance of amended C13 at bank 3, pin 21. -/
theorem rk3562_mux_reg_and_bit_formula_witness :
    PIN_BANK_IOMUX_FLAGS_OFFSET 3 32 "gpio3" 2 2 2 2 0x10040 0x10048 0x10050 0x10058
        ∈ rk3562_pin_banks 2 ∧
    21 < (PIN_BANK_IOMUX_FLAGS_OFFSET 3 32 "gpio3" 2 2 2 2
          0x10040 0x10048 0x10050 0x10058).nr_pins ∧
    ∃ reg, rk3562_mux_reg_and_bit
        (PIN_BANK_IOMUX_FLAGS_OFFSET 3 32 "gpio3" 2 2 2 2 0x10040 0x10048 0x10050 0x10058)
        ((21 : Nat) : Int) = some (reg, (((21 % 4) * 4 : Nat) : Int)) ∧
      ((PIN_BANK_IOMUX_FLAGS_OFFSET 3 32 "gpio3" 2 2 2 2
            0x10040 0x10048 0x10050 0x10058).bank_num ≠ 2 ∨ 21 < 8 →
        reg = (PIN_BANK_IOMUX_FLAGS_OFFSET 3 32 "gpio3" 2 2 2 2
                0x10040 0x10048 0x10050 0x10058).iomux.e0.offset
              + 8 * ((21 / 8 : Nat) : Int) + (if 4 ≤ 21 % 8 then 4 else 0)) :=
  ⟨List.Mem.tail _ (List.Mem.tail _ (List.Mem.tail _ (List.Mem.head _))), by decide,
    rk3562_mux_reg_and_bit_formula 2 _
      (List.Mem.tail _ (List.Mem.tail _ (List.Mem.tail _ (List.Mem.head _)))) 21 (by decide)⟩

/-- For any enable value, `rk3562_set_schmitt` issues exactly one write, to the
register that `rk3562_calc_schmitt_reg_and_bit` computes, and returns its
result. -/
theorem rk3562_set_schmitt_writes_once (m : regmap) (bank : rockchip_pin_bank) (p : Nat)
    (enable : Int) :
    ∃ v, rk3562_set_schmitt m bank (p : Int) enable =
      some (m.answer m.log ⟨(rk3562_calc_schmitt_reg_and_bit bank (p : Int)).2.1, v⟩,
            { m with log := m.log ++
              [⟨(rk3562_calc_schmitt_reg_and_bit bank (p : Int)).2.1, v⟩] }) := by
  obtain ⟨h1, h2, _, _, _⟩ := two_bit_field_halves p 0 (le_refl 0)
  have h8 : p % 8 < 8 := Nat.mod_lt _ (by norm_num)
  have h3 : c_shl enable (((p % 8) * 2 : Nat) : Int) = some (enable * 2 ^ ((p % 8) * 2)) :=
    c_shl_natCast _ _ (by omega)
  refine ⟨to_u32 (3 * 2 ^ ((p % 8) * 2 + 16)) ||| to_u32 (enable * 2 ^ ((p % 8) * 2)), ?_⟩
  rw [rk3562_calc_schmitt_reg_and_bit_eq]
  unfold rk3562_set_schmitt
  rw [rk3562_calc_schmitt_reg_and_bit_eq]
  simp only [RK3562_SMT_BITS_PER_PIN, h1, h2, h3, Option.bind_eq_bind, Option.some_bind,
    regmap_write, Option.pure_def]

theorem c_shl_any_of_some (ub : Int → Int → Int) (x n y : Int) (h : c_shl x n = some y) :
    c_shl_any ub x n = y := by
  unfold c_shl_any
  rw [h]

/-- Where C defines every shift of `rk3562_set_drive`, the machine version
returns the same result. -/
theorem rk3562_set_drive_any_eq (ub : Int → Int → Int) (m : regmap)
    (bank : rockchip_pin_bank) (p : Nat) (strength : Int)
    (hs : 0 ≤ strength + 1 ∧ strength + 1 < 32) :
    rk3562_set_drive m bank (p : Int) strength =
      some (rk3562_set_drive_any ub m bank (p : Int) strength) := by
  have h2 : p % 2 < 2 := Nat.mod_lt _ (by norm_num)
  have h1 : c_shl 1 (strength + 1) = some (1 * 2 ^ (strength + 1).toNat) := by
    unfold c_shl
    rw [if_pos hs]
  have hw : c_shl 1 RK3562_DRV_BITS_PER_PIN = some 256 := by
    have := c_shl_natCast 1 8 (by norm_num)
    simpa [RK3562_DRV_BITS_PER_PIN] using this
  have hhi : c_shl (256 - 1) ((((p % 2) * 8 : Nat) : Int) + 16)
      = some ((256 - 1) * 2 ^ ((p % 2) * 8 + 16)) := by
    have := c_shl_natCast (256 - 1) ((p % 2) * 8 + 16) (by omega)
    push_cast at this ⊢
    exact this
  have hlo : ∀ d : Int, c_shl d (((p % 2) * 8 : Nat) : Int) = some (d * 2 ^ ((p % 2) * 8)) :=
    fun d => c_shl_natCast d _ (by omega)
  unfold rk3562_set_drive rk3562_set_drive_any rk3562_drv_code rk3562_drv_code_any
  rw [rk3562_calc_drv_reg_and_bit_eq]
  simp only [Option.bind_eq_bind, Option.some_bind, Option.pure_def, h1, hw, hhi, hlo,
    c_shl_any_of_some ub _ _ _ h1, c_shl_any_of_some ub _ _ _ hw,
    c_shl_any_of_some ub _ _ _ hhi, c_shl_any_of_some ub _ _ _ (hlo _)]

/-- C14: for every bank number outside `0..4` and every pin in `0..31`, the
drive, pull and Schmitt register calculators use base offset 0, so the
register is `(pin/2)*4` for drive and `(pin/8)*4` for pull and Schmitt, and
`rk3562_set_drive`, for every strength, and `rk3562_set_schmitt`, for every
enable value, still issue their one write to that register and return its
result.  For `rk3562_set_drive` this is proved on the machine version of the
function, whatever a shift by an amount outside `0..31` yields, and that
version is the result of `rk3562_set_drive` wherever C defines
`1 << (strength + 1)`. -/
theorem rk3562_unsupported_bank_base_zero (bank : rockchip_pin_bank)
    (hb : bank.bank_num < 0 ∨ 4 < bank.bank_num) (pin : Nat) (_hp : pin < 32)
    (strength enable : Int) (ub : Int → Int → Int) (m : regmap) :
    rk3562_calc_drv_reg_and_bit bank (pin : Int)
      = (((pin / 2 : Nat) : Int) * 4, (((pin % 2) * 8 : Nat) : Int)) ∧
    rk3562_calc_pull_reg_and_bit bank (pin : Int)
      = (((pin / 8 : Nat) : Int) * 4, (((pin % 8) * 2 : Nat) : Int)) ∧
    rk3562_calc_schmitt_reg_and_bit bank (pin : Int)
      = (0, ((pin / 8 : Nat) : Int) * 4, (((pin % 8) * 2 : Nat) : Int)) ∧
    (∃ v, rk3562_set_drive_any ub m bank (pin : Int) strength =
      (m.answer m.log ⟨((pin / 2 : Nat) : Int) * 4, v⟩,
       { m with log := m.log ++ [⟨((pin / 2 : Nat) : Int) * 4, v⟩] })) ∧
    (0 ≤ strength + 1 ∧ strength + 1 < 32 →
      rk3562_set_drive m bank (pin : Int) strength =
        some (rk3562_set_drive_any ub m bank (pin : Int) strength)) ∧
    (∃ v, rk3562_set_schmitt m bank (pin : Int) enable =
      some (m.answer m.log ⟨((pin / 8 : Nat) : Int) * 4, v⟩,
            { m with log := m.log ++ [⟨((pin / 8 : Nat) : Int) * 4, v⟩] })) := by
  have n0 : ¬ bank.bank_num = 0 := by omega
  have n1 : ¬ bank.bank_num = 1 := by omega
  have n2 : ¬ bank.bank_num = 2 := by omega
  have n3 : ¬ bank.bank_num = 3 := by omega
  have n4 : ¬ bank.bank_num = 4 := by omega
  have hd : rk3562_calc_drv_reg_and_bit bank (pin : Int)
      = (((pin / 2 : Nat) : Int) * 4, (((pin % 2) * 8 : Nat) : Int)) := by
    rw [rk3562_calc_drv_reg_and_bit_eq]
    simp [n0, n1, n2, n3, n4]
  have hs2 : rk3562_calc_schmitt_reg_and_bit bank (pin : Int)
      = (0, ((pin / 8 : Nat) : Int) * 4, (((pin % 8) * 2 : Nat) : Int)) := by
    rw [rk3562_calc_schmitt_reg_and_bit_eq]
    simp [n0, n1, n2, n3, n4]
  refine ⟨hd, ?_, hs2, ?_, ?_, ?_⟩
  · rw [rk3562_calc_pull_reg_and_bit_eq]
    simp [n0, n1, n2, n3, n4]
  · unfold rk3562_set_drive_any
    rw [hd]
    exact ⟨_, rfl⟩
  · exact rk3562_set_drive_any_eq ub m bank pin strength
  · obtain ⟨v, e⟩ := rk3562_set_schmitt_writes_once m bank pin enable
    rw [hs2] at e
    exact ⟨v, e⟩

/-- Instance of C14 at bank number 7, pin 10, strength 31 (where C leaves
`1 << 32` undefined), enable 1. -/
theorem rk3562_unsupported_bank_base_zero_witness :
    ((PIN_BANK_IOMUX_FLAGS_OFFSET 7 32 "gpio7" 2 2 2 2 0 0 0 0).bank_num < 0 ∨
      4 < (PIN_BANK_IOMUX_FLAGS_OFFSET 7 32 "gpio7" 2 2 2 2 0 0 0 0).bank_num) ∧
    10 < 32 ∧
    (rk3562_calc_drv_reg_and_bit (PIN_BANK_IOMUX_FLAGS_OFFSET 7 32 "gpio7" 2 2 2 2 0 0 0 0)
        ((10 : Nat) : Int)
      = (((10 / 2 : Nat) : Int) * 4, (((10 % 2) * 8 : Nat) : Int)) ∧
    rk3562_calc_pull_reg_and_bit (PIN_BANK_IOMUX_FLAGS_OFFSET 7 32 "gpio7" 2 2 2 2 0 0 0 0)
        ((10 : Nat) : Int)
      = (((10 / 8 : Nat) : Int) * 4, (((10 % 8) * 2 : Nat) : Int)) ∧
    rk3562_calc_schmitt_reg_and_bit (PIN_BANK_IOMUX_FLAGS_OFFSET 7 32 "gpio7" 2 2 2 2 0 0 0 0)
        ((10 : Nat) : Int)
      = (0, ((10 / 8 : Nat) : Int) * 4, (((10 % 8) * 2 : Nat) : Int)) ∧
    (∃ v, rk3562_set_drive_any (fun _ _ => 0) quiet_regmap
        (PIN_BANK_IOMUX_FLAGS_OFFSET 7 32 "gpio7" 2 2 2 2 0 0 0 0) ((10 : Nat) : Int) 31 =
      (quiet_regmap.answer quiet_regmap.log ⟨((10 / 2 : Nat) : Int) * 4, v⟩,
       { quiet_regmap with
           log := quiet_regmap.log ++ [⟨((10 / 2 : Nat) : Int) * 4, v⟩] })) ∧
    (0 ≤ (31 : Int) + 1 ∧ (31 : Int) + 1 < 32 →
      rk3562_set_drive quiet_regmap
          (PIN_BANK_IOMUX_FLAGS_OFFSET 7 32 "gpio7" 2 2 2 2 0 0 0 0) ((10 : Nat) : Int) 31 =
        some (rk3562_set_drive_any (fun _ _ => 0) quiet_regmap
          (PIN_BANK_IOMUX_FLAGS_OFFSET 7 32 "gpio7" 2 2 2 2 0 0 0 0) ((10 : Nat) : Int) 31)) ∧
    (∃ v, rk3562_set_schmitt quiet_regmap
        (PIN_BANK_IOMUX_FLAGS_OFFSET 7 32 "gpio7" 2 2 2 2 0 0 0 0) ((10 : Nat) : Int) 1 =
      some (quiet_regmap.answer quiet_regmap.log ⟨((10 / 8 : Nat) : Int) * 4, v⟩,
            { quiet_regmap with
                log := quiet_regmap.log ++ [⟨((10 / 8 : Nat) : Int) * 4, v⟩] }))) :=
  ⟨Or.inr (by decide), by decide,
    rk3562_unsupported_bank_base_zero
      (PIN_BANK_IOMUX_FLAGS_OFFSET 7 32 "gpio7" 2 2 2 2 0 0 0 0) (Or.inr (by decide))
      10 (by decide) 31 1 (fun _ _ => 0) quiet_regmap⟩

/-- C15: `rk3562_pin_banks` has exactly 5 banks, numbered `0..4` in order, with
pin counts 32, 32, 32, 32, 16, and the chip-wide pin count
`rk3562_pin_ctrl.nr_pins` is 144, the sum of the banks' pin counts. -/
theorem rk3562_pin_ctrl_consistent (w4 : Int) :
    (rk3562_pin_banks w4).length = 5 ∧
    (rk3562_pin_ctrl w4).nr_banks = 5 ∧
    (rk3562_pin_ctrl w4).pin_banks = rk3562_pin_banks w4 ∧
    (rk3562_pin_banks w4).map (fun b => b.bank_num) = [0, 1, 2, 3, 4] ∧
    (rk3562_pin_banks w4).map (fun b => b.nr_pins) = [32, 32, 32, 32, 16] ∧
    (rk3562_pin_ctrl w4).nr_pins = 144 ∧
    (rk3562_pin_ctrl w4).nr_pins = ((rk3562_pin_banks w4).map (fun b => b.nr_pins)).sum := by
  refine ⟨rfl, rfl, rfl, rfl, rfl, rfl, rfl⟩

/-! ## Masked writes -/

theorem testBit_div_65536 (x i : Nat) : (x / 65536).testBit i = x.testBit (16 + i) := by
  have e16 : (65536 : Nat) = 2 ^ 16 := by norm_num
  rw [e16, ← Nat.shiftRight_eq_div_pow, Nat.testBit_shiftRight]

theorem testBit_mod_65536 (x i : Nat) :
    (x % 65536).testBit i = (decide (i < 16) && x.testBit i) := by
  have e16 : (65536 : Nat) = 2 ^ 16 := by norm_num
  rw [e16, Nat.testBit_mod_two_pow]

theorem testBit_high_of_lt (w code j : Nat) (hc : code < 2 ^ w) (hj : w ≤ j) :
    code.testBit j = false :=
  Nat.testBit_lt_two_pow (lt_of_lt_of_le hc (Nat.pow_le_pow_right (by norm_num) hj))

/-- The write-enable half of a field write has exactly the bits of the field set. -/
theorem field_value_enable_bit (w bit code i : Nat) (hw : bit + w ≤ 16)
    (hc : code < 2 ^ w) :
    ((((2 ^ w - 1) <<< (bit + 16)) ||| (code <<< bit)) / 65536).testBit i
      = decide (bit ≤ i ∧ i < bit + w) := by
  rw [testBit_div_65536, Nat.testBit_or, Nat.testBit_shiftLeft, Nat.testBit_shiftLeft,
    Nat.testBit_two_pow_sub_one, testBit_high_of_lt w code _ hc (by omega)]
  by_cases h1 : bit ≤ i
  · have e : 16 + i - (bit + 16) = i - bit := by omega
    rw [e]
    by_cases h2 : i < bit + w
    · have h3 : i - bit < w := by omega
      have h4 : 16 + i ≥ bit + 16 := by omega
      simp [h1, h2, h3, h4]
    · have h3 : ¬ (i - bit < w) := by omega
      simp [h2, h3]
  · have h4 : ¬ (16 + i ≥ bit + 16) := by omega
    simp [h1, h4]

/-- Inside the field, the data half of a field write carries the code. -/
theorem field_value_low_bit (w bit code i : Nat) (h1 : bit ≤ i) (h2 : i < bit + w)
    (hw : bit + w ≤ 16) :
    ((((2 ^ w - 1) <<< (bit + 16)) ||| (code <<< bit)) % 65536).testBit i
      = code.testBit (i - bit) := by
  rw [testBit_mod_65536, Nat.testBit_or, Nat.testBit_shiftLeft, Nat.testBit_shiftLeft]
  have h3 : i < 16 := by omega
  have h4 : ¬ (i ≥ bit + 16) := by omega
  simp [h1, h3, h4]

/-- Bit by bit, a field write puts the code into the field and keeps the
16 data bits of the register everywhere else. -/
theorem masked_write_testBit (w bit code old i : Nat) (hw : bit + w ≤ 16)
    (hc : code < 2 ^ w) :
    (masked_write old (((2 ^ w - 1) <<< (bit + 16)) ||| (code <<< bit))).testBit i =
      if bit ≤ i ∧ i < bit + w then code.testBit (i - bit)
      else (decide (i < 16) && old.testBit i) := by
  have f16 : (65535 : Nat) = 2 ^ 16 - 1 := by norm_num
  unfold masked_write
  simp only [Nat.testBit_or, Nat.testBit_and, Nat.testBit_xor]
  rw [field_value_enable_bit w bit code i hw hc, f16, Nat.testBit_two_pow_sub_one]
  by_cases hin : bit ≤ i ∧ i < bit + w
  · rw [if_pos hin, field_value_low_bit w bit code i hin.1 hin.2 hw]
    have h3 : i < 16 := by omega
    simp [hin, h3]
  · rw [if_neg hin]
    by_cases h16 : i < 16 <;> simp [hin, h16, Bool.and_comm]

/-- After a field write to a 16-bit register the field holds the code and
every bit outside the field is unchanged. -/
theorem masked_write_field_and_frame (w bit code old : Nat) (hw : bit + w ≤ 16)
    (hc : code < 2 ^ w) (hold : old < 65536) :
    (masked_write old (((2 ^ w - 1) <<< (bit + 16)) ||| (code <<< bit)) / 2 ^ bit) % 2 ^ w
      = code ∧
    ∀ i, (i < bit ∨ bit + w ≤ i) →
      (masked_write old (((2 ^ w - 1) <<< (bit + 16)) ||| (code <<< bit))).testBit i
        = old.testBit i := by
  constructor
  · apply Nat.eq_of_testBit_eq
    intro j
    rw [Nat.testBit_mod_two_pow, ← Nat.shiftRight_eq_div_pow, Nat.testBit_shiftRight,
      masked_write_testBit w bit code old _ hw hc]
    by_cases hj : j < w
    · have e : bit + j - bit = j := by omega
      rw [if_pos ⟨by omega, by omega⟩, e]
      simp [hj]
    · rw [testBit_high_of_lt w code j hc (by omega)]
      simp [hj]
  · intro i hi
    rw [masked_write_testBit w bit code old i hw hc, if_neg (by omega)]
    by_cases h16 : i < 16
    · simp [h16]
    · have : old.testBit i = false :=
        testBit_high_of_lt 16 old i (by simpa using hold) (by omega)
      simp [h16, this]

/-- Field writes to two disjoint fields of a register commute. -/
theorem masked_write_comm (w b1 b2 c1 c2 old : Nat) (hw1 : b1 + w ≤ 16) (hw2 : b2 + w ≤ 16)
    (hc1 : c1 < 2 ^ w) (hc2 : c2 < 2 ^ w) (hd : b1 + w ≤ b2 ∨ b2 + w ≤ b1) :
    masked_write (masked_write old (((2 ^ w - 1) <<< (b1 + 16)) ||| (c1 <<< b1)))
        (((2 ^ w - 1) <<< (b2 + 16)) ||| (c2 <<< b2)) =
      masked_write (masked_write old (((2 ^ w - 1) <<< (b2 + 16)) ||| (c2 <<< b2)))
        (((2 ^ w - 1) <<< (b1 + 16)) ||| (c1 <<< b1)) := by
  apply Nat.eq_of_testBit_eq
  intro i
  rw [masked_write_testBit w b2 c2 _ i hw2 hc2, masked_write_testBit w b1 c1 _ i hw1 hc1,
    masked_write_testBit w b1 c1 _ i hw1 hc1, masked_write_testBit w b2 c2 _ i hw2 hc2]
  by_cases h1 : b1 ≤ i ∧ i < b1 + w
  · have h2 : ¬ (b2 ≤ i ∧ i < b2 + w) := by omega
    have h3 : i < 16 := by omega
    simp [h1, h2, h3]
  · by_cases h2 : b2 ≤ i ∧ i < b2 + w
    · have h3 : i < 16 := by omega
      simp [h1, h2, h3]
    · simp [h1, h2]

/-! ## Written values in field form -/

theorem rk3562_set_drive_field (m : regmap) (bank : rockchip_pin_bank) (p s : Nat)
    (hs : s ≤ 7) :
    rk3562_set_drive m bank (p : Int) (s : Int) =
      some (m.answer m.log
              ⟨(rk3562_calc_drv_reg_and_bit bank (p : Int)).1,
               ((2 ^ 8 - 1) <<< ((p % 2) * 8 + 16)) |||
                 ((2 ^ (s + 1) - 1) <<< ((p % 2) * 8))⟩,
            { m with log := m.log ++
              [⟨(rk3562_calc_drv_reg_and_bit bank (p : Int)).1,
                ((2 ^ 8 - 1) <<< ((p % 2) * 8 + 16)) |||
                  ((2 ^ (s + 1) - 1) <<< ((p % 2) * 8))⟩] }) := by
  have h2 : p % 2 < 2 := Nat.mod_lt _ (by norm_num)
  have hle : 2 ^ (s + 1) - 1 ≤ 255 := by
    have : 2 ^ (s + 1) ≤ 2 ^ 8 := Nat.pow_le_pow_right (by norm_num) (by omega)
    omega
  have hlt : (2 ^ (s + 1) - 1) <<< ((p % 2) * 8) < 4294967296 :=
    shiftLeft_lt_word _ _ 255 8 hle (by omega) (by decide)
  rw [rk3562_set_drive_eq m bank p s (by omega), Nat.mod_eq_of_lt hlt]
  rfl

theorem rk3562_set_schmitt_field (m : regmap) (bank : rockchip_pin_bank) (p e : Nat)
    (he : e ≤ 3) :
    rk3562_set_schmitt m bank (p : Int) (e : Int) =
      some (m.answer m.log
              ⟨(rk3562_calc_schmitt_reg_and_bit bank (p : Int)).2.1,
               ((2 ^ 2 - 1) <<< ((p % 8) * 2 + 16)) ||| (e <<< ((p % 8) * 2))⟩,
            { m with log := m.log ++
              [⟨(rk3562_calc_schmitt_reg_and_bit bank (p : Int)).2.1,
                ((2 ^ 2 - 1) <<< ((p % 8) * 2 + 16)) ||| (e <<< ((p % 8) * 2))⟩] }) := by
  have h8 : p % 8 < 8 := Nat.mod_lt _ (by norm_num)
  have hlt : e <<< ((p % 8) * 2) < 4294967296 :=
    shiftLeft_lt_word _ _ 3 14 he (by omega) (by decide)
  rw [rk3562_set_schmitt_eq m bank p e, Nat.mod_eq_of_lt hlt]
  rfl

theorem rk3562_set_pull_field (x : Externals) (m : regmap) (bank : rockchip_pin_bank)
    (p : Nat) (hp : p < 32) (pull : Int) (hpull : pull ≠ x.PIN_CONFIG_BIAS_PULL_PIN_DEFAULT)
    (hcode : ∀ ty, bank.pull_type.at ((p / 8 : Nat) : Int) = some ty →
      0 ≤ x.rockchip_translate_pull_value (to_u8 ty) pull ∧
      x.rockchip_translate_pull_value (to_u8 ty) pull ≤ 3) :
    ∃ c : Nat, c ≤ 3 ∧
      (∃ ty, bank.pull_type.at ((p / 8 : Nat) : Int) = some ty ∧
        x.rockchip_translate_pull_value (to_u8 ty) pull = (c : Int)) ∧
      rk3562_set_pull x m bank (p : Int) pull =
        some (m.answer m.log
                ⟨(rk3562_calc_pull_reg_and_bit bank (p : Int)).1,
                 ((2 ^ 2 - 1) <<< ((p % 8) * 2 + 16)) ||| (c <<< ((p % 8) * 2))⟩,
              { m with log := m.log ++
                [⟨(rk3562_calc_pull_reg_and_bit bank (p : Int)).1,
                  ((2 ^ 2 - 1) <<< ((p % 8) * 2 + 16)) ||| (c <<< ((p % 8) * 2))⟩] }) := by
  have hk : p / 8 < 4 := by omega
  have h8 : p % 8 < 8 := Nat.mod_lt _ (by norm_num)
  have hat := Arr4.at_natCast bank.pull_type (p / 8) hk
  generalize (if p / 8 = 0 then bank.pull_type.e0 else if p / 8 = 1 then bank.pull_type.e1
    else if p / 8 = 2 then bank.pull_type.e2 else bank.pull_type.e3) = ty at hat
  obtain ⟨h0, h3⟩ := hcode ty hat
  obtain ⟨c, hc⟩ := Int.eq_ofNat_of_zero_le h0
  have hc3 : c ≤ 3 := by omega
  refine ⟨c, hc3, ⟨ty, hat, hc⟩, ?_⟩
  have hlt : c <<< ((p % 8) * 2) < 4294967296 :=
    shiftLeft_lt_word _ _ 3 14 hc3 (by omega) (by decide)
  rw [rk3562_set_pull_eq x m bank p pull hpull, hat]
  simp only [Option.map_some', hc, if_neg (not_lt.mpr (Int.ofNat_nonneg c)), Int.toNat_ofNat,
    Nat.mod_eq_of_lt hlt]
  rfl

theorem rk3562_set_mux_field (m : regmap) (bank : rockchip_pin_bank) (p : Nat) (hp : p < 32)
    (mux : Int) :
    ∃ pre reg, rk3562_mux_reg_and_bit bank (p : Int)
        = some (reg, (((p % 4) * 4 : Nat) : Int)) ∧
      rk3562_set_mux m bank (p : Int) mux =
        some (m.answer (m.log ++ pre)
                ⟨reg, ((2 ^ 4 - 1) <<< ((p % 4) * 4 + 16)) |||
                        ((mux % 16).toNat <<< ((p % 4) * 4))⟩,
              { m with log := m.log ++ pre ++
                [⟨reg, ((2 ^ 4 - 1) <<< ((p % 4) * 4 + 16)) |||
                        ((mux % 16).toNat <<< ((p % 4) * 4))⟩] }) := by
  have hk : p / 8 < 4 := by omega
  refine ⟨(if bank.bank_num = 1 ∧ (p = 13 ∨ p = 14) then
        [⟨0x504, if mux = 1 then 0x10001 else 0x10000⟩] else []),
    (if p / 8 = 0 then bank.iomux.e0 else if p / 8 = 1 then bank.iomux.e1
      else if p / 8 = 2 then bank.iomux.e2 else bank.iomux.e3).offset
      + (if 4 ≤ p % 8 then 4 else 0), ?_, ?_⟩
  · rw [rk3562_mux_reg_and_bit_eq, Arr4.at_natCast _ _ hk]
    rfl
  · rw [rk3562_set_mux_eq m bank p hp mux, Arr4.at_natCast _ _ hk]
    rfl

/-- C16: under the masked-write register semantics, the property write of each
translator updates only the targeted pin's field: for every bank, every pin in
`0..31`, every 16-bit register content and every in-range value (any mux code,
strength `0..7`, translated pull code `0..3`, enable `0/1`), after the write
the pin's field holds the intended code (`mux mod 16`, `2^(strength+1)-1`, the
pull code, the enable bit) and every bit outside that field is unchanged. -/
theorem masked_write_updates_only_field (x : Externals) (bank : rockchip_pin_bank)
    (pin : Nat) (hp : pin < 32) (old : Nat) (hold : old < 65536) (mux : Int)
    (strength : Nat) (hs : strength ≤ 7) (pull : Int)
    (hpull : pull ≠ x.PIN_CONFIG_BIAS_PULL_PIN_DEFAULT)
    (hcode : ∀ ty, bank.pull_type.at ((pin / 8 : Nat) : Int) = some ty →
      0 ≤ x.rockchip_translate_pull_value (to_u8 ty) pull ∧
      x.rockchip_translate_pull_value (to_u8 ty) pull ≤ 3)
    (enable : Nat) (he : enable ≤ 1) (m : regmap) :
    (∃ pre r v,
      rk3562_set_mux m bank (pin : Int) mux =
        some (m.answer (m.log ++ pre) ⟨r, v⟩, { m with log := m.log ++ pre ++ [⟨r, v⟩] }) ∧
      (masked_write old v / 2 ^ ((pin % 4) * 4)) % 16 = (mux % 16).toNat ∧
      ∀ i, (i < (pin % 4) * 4 ∨ (pin % 4) * 4 + 4 ≤ i) →
        (masked_write old v).testBit i = old.testBit i) ∧
    (∃ r v,
      rk3562_set_drive m bank (pin : Int) (strength : Int) =
        some (m.answer m.log ⟨r, v⟩, { m with log := m.log ++ [⟨r, v⟩] }) ∧
      (masked_write old v / 2 ^ ((pin % 2) * 8)) % 256 = 2 ^ (strength + 1) - 1 ∧
      ∀ i, (i < (pin % 2) * 8 ∨ (pin % 2) * 8 + 8 ≤ i) →
        (masked_write old v).testBit i = old.testBit i) ∧
    (∃ (c : Nat) (ty : Int) (r : Int) (v : Nat),
      bank.pull_type.at ((pin / 8 : Nat) : Int) = some ty ∧
      x.rockchip_translate_pull_value (to_u8 ty) pull = (c : Int) ∧
      rk3562_set_pull x m bank (pin : Int) pull =
        some (m.answer m.log ⟨r, v⟩, { m with log := m.log ++ [⟨r, v⟩] }) ∧
      (masked_write old v / 2 ^ ((pin % 8) * 2)) % 4 = c ∧
      ∀ i, (i < (pin % 8) * 2 ∨ (pin % 8) * 2 + 2 ≤ i) →
        (masked_write old v).testBit i = old.testBit i) ∧
    (∃ r v,
      rk3562_set_schmitt m bank (pin : Int) (enable : Int) =
        some (m.answer m.log ⟨r, v⟩, { m with log := m.log ++ [⟨r, v⟩] }) ∧
      (masked_write old v / 2 ^ ((pin % 8) * 2)) % 4 = enable ∧
      ∀ i, (i < (pin % 8) * 2 ∨ (pin % 8) * 2 + 2 ≤ i) →
        (masked_write old v).testBit i = old.testBit i) := by
  have h4 : pin % 4 < 4 := Nat.mod_lt _ (by norm_num)
  have h2 : pin % 2 < 2 := Nat.mod_lt _ (by norm_num)
  have h8 : pin % 8 < 8 := Nat.mod_lt _ (by norm_num)
  refine ⟨?_, ?_, ?_, ?_⟩
  · obtain ⟨pre, reg, _, e⟩ := rk3562_set_mux_field m bank pin hp mux
    have hx0 : 0 ≤ mux % 16 := Int.emod_nonneg _ (by norm_num)
    have hx1 : mux % 16 < 16 := Int.emod_lt_of_pos _ (by norm_num)
    have hx : (mux % 16).toNat < 2 ^ 4 := by norm_num; omega
    exact ⟨pre, reg, _, e,
      masked_write_field_and_frame 4 ((pin % 4) * 4) _ old (by omega) hx hold⟩
  · have hle : 2 ^ (strength + 1) - 1 < 2 ^ 8 := by
      have : 2 ^ (strength + 1) ≤ 2 ^ 8 := Nat.pow_le_pow_right (by norm_num) (by omega)
      have : 0 < 2 ^ (strength + 1) := Nat.two_pow_pos _
      omega
    exact ⟨_, _, rk3562_set_drive_field m bank pin strength hs,
      masked_write_field_and_frame 8 ((pin % 2) * 8) _ old (by omega) hle hold⟩
  · obtain ⟨c, hc3, ⟨ty, hat, hc⟩, e⟩ :=
      rk3562_set_pull_field x m bank pin hp pull hpull hcode
    exact ⟨c, ty, _, _, hat, hc, e,
      masked_write_field_and_frame 2 ((pin % 8) * 2) c old (by omega)
        (by norm_num; omega) hold⟩
  · exact ⟨_, _, rk3562_set_schmitt_field m bank pin enable (by omega),
      masked_write_field_and_frame 2 ((pin % 8) * 2) enable old (by omega)
        (by norm_num; omega) hold⟩

/-! ## Register ranges of the four properties over the static table -/

theorem rk3562_mux_reg_range (w4 : Int) (bank : rockchip_pin_bank)
    (hb : bank ∈ rk3562_pin_banks w4) (p : Nat) (hp : p < bank.nr_pins) :
    ∃ r bit, rk3562_mux_reg_and_bit bank (p : Int) = some (r, bit) ∧
      ((0 ≤ r ∧ r ≤ 0x24) ∨ (0x10040 ≤ r ∧ r ≤ 0x1006C) ∨ (0x20000 ≤ r ∧ r ≤ 0x2001C)) := by
  obtain ⟨b, _, hb4, hpb, he⟩ := rk3562_mux_reg_and_bit_table w4 bank hb p hp
  refine ⟨_, _, he, ?_⟩
  interval_cases b <;> simp at hpb ⊢ <;> split_ifs <;> omega

theorem rk3562_property_reg_ranges (w4 : Int) (bank : rockchip_pin_bank)
    (hb : bank ∈ rk3562_pin_banks w4) (p : Nat) (hp : p < bank.nr_pins) :
    ((0x200 ≤ (rk3562_calc_drv_reg_and_bit bank (p : Int)).1 ∧
        (rk3562_calc_drv_reg_and_bit bank (p : Int)).1 ≤ 0x27C) ∨
      (0x10280 ≤ (rk3562_calc_drv_reg_and_bit bank (p : Int)).1 ∧
        (rk3562_calc_drv_reg_and_bit bank (p : Int)).1 ≤ 0x102DC) ∨
      (0x20070 ≤ (rk3562_calc_drv_reg_and_bit bank (p : Int)).1 ∧
        (rk3562_calc_drv_reg_and_bit bank (p : Int)).1 ≤ 0x200AC)) ∧
    ((0x80 ≤ (rk3562_calc_pull_reg_and_bit bank (p : Int)).1 ∧
        (rk3562_calc_pull_reg_and_bit bank (p : Int)).1 ≤ 0x9C) ∨
      (0x100A0 ≤ (rk3562_calc_pull_reg_and_bit bank (p : Int)).1 ∧
        (rk3562_calc_pull_reg_and_bit bank (p : Int)).1 ≤ 0x100B4) ∨
      (0x20020 ≤ (rk3562_calc_pull_reg_and_bit bank (p : Int)).1 ∧
        (rk3562_calc_pull_reg_and_bit bank (p : Int)).1 ≤ 0x2002C)) ∧
    ((0xC0 ≤ (rk3562_calc_schmitt_reg_and_bit bank (p : Int)).2.1 ∧
        (rk3562_calc_schmitt_reg_and_bit bank (p : Int)).2.1 ≤ 0xDC) ∨
      (0x100E0 ≤ (rk3562_calc_schmitt_reg_and_bit bank (p : Int)).2.1 ∧
        (rk3562_calc_schmitt_reg_and_bit bank (p : Int)).2.1 ≤ 0x100F4) ∨
      (0x20030 ≤ (rk3562_calc_schmitt_reg_and_bit bank (p : Int)).2.1 ∧
        (rk3562_calc_schmitt_reg_and_bit bank (p : Int)).2.1 ≤ 0x2003C)) := by
  obtain ⟨⟨b, hbn, hb4, hc⟩, _⟩ := rk3562_pin_banks_bank_num w4 bank bank hb hb
  rw [hc] at hp
  rw [rk3562_calc_drv_reg_and_bit_eq, rk3562_calc_pull_reg_and_bit_eq,
    rk3562_calc_schmitt_reg_and_bit_eq, hbn]
  interval_cases b <;> simp at hp ⊢ <;> omega

/-- C17: over all valid (bank, pin) pairs of the static table, the register
offsets targeted by the mux, drive-strength, pull and Schmitt translators are
pairwise different from one property to another, and none of them is the
debug-strap register `0x504`. -/
theorem rk3562_property_registers_disjoint (w4 : Int) (b1 b2 : rockchip_pin_bank)
    (h1 : b1 ∈ rk3562_pin_banks w4) (h2 : b2 ∈ rk3562_pin_banks w4) (p1 p2 : Nat)
    (hp1 : p1 < b1.nr_pins) (hp2 : p2 < b2.nr_pins) :
    ∃ rm bit, rk3562_mux_reg_and_bit b1 (p1 : Int) = some (rm, bit) ∧
      rm ≠ (rk3562_calc_drv_reg_and_bit b2 (p2 : Int)).1 ∧
      rm ≠ (rk3562_calc_pull_reg_and_bit b2 (p2 : Int)).1 ∧
      rm ≠ (rk3562_calc_schmitt_reg_and_bit b2 (p2 : Int)).2.1 ∧
      (rk3562_calc_drv_reg_and_bit b1 (p1 : Int)).1 ≠
        (rk3562_calc_pull_reg_and_bit b2 (p2 : Int)).1 ∧
      (rk3562_calc_drv_reg_and_bit b1 (p1 : Int)).1 ≠
        (rk3562_calc_schmitt_reg_and_bit b2 (p2 : Int)).2.1 ∧
      (rk3562_calc_pull_reg_and_bit b1 (p1 : Int)).1 ≠
        (rk3562_calc_schmitt_reg_and_bit b2 (p2 : Int)).2.1 ∧
      rm ≠ 0x504 ∧
      (rk3562_calc_drv_reg_and_bit b1 (p1 : Int)).1 ≠ 0x504 ∧
      (rk3562_calc_pull_reg_and_bit b1 (p1 : Int)).1 ≠ 0x504 ∧
      (rk3562_calc_schmitt_reg_and_bit b1 (p1 : Int)).2.1 ≠ 0x504 := by
  obtain ⟨rm, bit, hm, hrm⟩ := rk3562_mux_reg_range w4 b1 h1 p1 hp1
  obtain ⟨hd1, hl1, hs1⟩ := rk3562_property_reg_ranges w4 b1 h1 p1 hp1
  obtain ⟨hd2, hl2, hs2⟩ := rk3562_property_reg_ranges w4 b2 h2 p2 hp2
  refine ⟨rm, bit, hm, ?_⟩
  generalize (rk3562_calc_drv_reg_and_bit b1 (p1 : Int)).1 = d1 at hd1 ⊢
  generalize (rk3562_calc_pull_reg_and_bit b1 (p1 : Int)).1 = l1 at hl1 ⊢
  generalize (rk3562_calc_schmitt_reg_and_bit b1 (p1 : Int)).2.1 = s1 at hs1 ⊢
  generalize (rk3562_calc_drv_reg_and_bit b2 (p2 : Int)).1 = d2 at hd2 ⊢
  generalize (rk3562_calc_pull_reg_and_bit b2 (p2 : Int)).1 = l2 at hl2 ⊢
  generalize (rk3562_calc_schmitt_reg_and_bit b2 (p2 : Int)).2.1 = s2 at hs2 ⊢
  clear h1 h2 hm hp1 hp2
  refine ⟨?_, ?_, ?_, ?_, ?_, ?_, ?_, ?_, ?_, ?_⟩
  · clear hd1 hl1 hs1 hl2 hs2; omega
  · clear hd1 hl1 hs1 hd2 hs2; omega
  · clear hd1 hl1 hs1 hd2 hl2; omega
  · clear hrm hl1 hs1 hd2 hs2; omega
  · clear hrm hl1 hs1 hd2 hl2; omega
  · clear hrm hd1 hs1 hd2 hl2; omega
  · clear hd1 hl1 hs1 hd2 hl2 hs2; omega
  · clear hrm hl1 hs1 hd2 hl2 hs2; omega
  · clear hrm hd1 hs1 hd2 hl2 hs2; omega
  · clear hrm hd1 hl1 hd2 hl2 hs2; omega

/-- C18 as stated fails for the mux translator: pins 8 and 16 of bank 2 are
written through the same register `0x0` at the same bit position 0, so setting
mux 1 on one and mux 2 on the other leaves 2 or 1 in the register depending on
the order; the same holds for the indices 16 and 24 of the 16-pin bank 4. -/
theorem masked_mux_writes_order_dependent :
    (rk3562_set_mux quiet_regmap
        (PIN_BANK_IOMUX_FLAGS_OFFSET 2 32 "gpio2" 2 2 2 2 0x20 0 0 0) 8 1 =
      some (0, { quiet_regmap with log := [⟨0x0, 0x000F0001⟩] }) ∧
     rk3562_set_mux quiet_regmap
        (PIN_BANK_IOMUX_FLAGS_OFFSET 2 32 "gpio2" 2 2 2 2 0x20 0 0 0) 16 2 =
      some (0, { quiet_regmap with log := [⟨0x0, 0x000F0002⟩] })) ∧
    (rk3562_set_mux quiet_regmap
        (PIN_BANK_IOMUX_FLAGS_OFFSET 4 16 "gpio4" 2 2 0 0 0x10060 0x10068 0 0) 16 1 =
      some (0, { quiet_regmap with log := [⟨0x0, 0x000F0001⟩] }) ∧
     rk3562_set_mux quiet_regmap
        (PIN_BANK_IOMUX_FLAGS_OFFSET 4 16 "gpio4" 2 2 0 0 0x10060 0x10068 0 0) 24 2 =
      some (0, { quiet_regmap with log := [⟨0x0, 0x000F0002⟩] })) ∧
    masked_write (masked_write 0 0x000F0001) 0x000F0002 = 2 ∧
    masked_write (masked_write 0 0x000F0002) 0x000F0001 = 1 ∧
    masked_write (masked_write 0 0x000F0001) 0x000F0002 ≠
      masked_write (masked_write 0 0x000F0002) 0x000F0001 := by
  refine ⟨⟨?_, ?_⟩, ⟨?_, ?_⟩, by decide, by decide, by decide⟩
  · have e := rk3562_set_mux_eq quiet_regmap
      (PIN_BANK_IOMUX_FLAGS_OFFSET 2 32 "gpio2" 2 2 2 2 0x20 0 0 0) 8 (by norm_num) 1
    simp only [Nat.cast_ofNat] at e
    rw [e]
    simp [quiet_regmap, PIN_BANK_IOMUX_FLAGS_OFFSET, Arr4.at]
  · have e := rk3562_set_mux_eq quiet_regmap
      (PIN_BANK_IOMUX_FLAGS_OFFSET 2 32 "gpio2" 2 2 2 2 0x20 0 0 0) 16 (by norm_num) 2
    simp only [Nat.cast_ofNat] at e
    rw [e]
    simp [quiet_regmap, PIN_BANK_IOMUX_FLAGS_OFFSET, Arr4.at]
  · have e := rk3562_set_mux_eq quiet_regmap
      (PIN_BANK_IOMUX_FLAGS_OFFSET 4 16 "gpio4" 2 2 0 0 0x10060 0x10068 0 0) 16
      (by norm_num) 1
    simp only [Nat.cast_ofNat] at e
    rw [e]
    simp [quiet_regmap, PIN_BANK_IOMUX_FLAGS_OFFSET, Arr4.at]
  · have e := rk3562_set_mux_eq quiet_regmap
      (PIN_BANK_IOMUX_FLAGS_OFFSET 4 16 "gpio4" 2 2 0 0 0x10060 0x10068 0 0) 24
      (by norm_num) 2
    simp only [Nat.cast_ofNat] at e
    rw [e]
    simp [quiet_regmap, PIN_BANK_IOMUX_FLAGS_OFFSET, Arr4.at]

/-- C18, amended: under the masked-write register semantics, configuring two
different pins that share a register and have different bit positions in it
commutes, for each translator, every bank, every two pins in `0..31`, every
in-range pair of values (any mux code, strength `0..7`, pull code `0..3`,
enable `0/1`) and every initial register content.  For the drive, pull and
Schmitt translators two distinct pins that share a register always have
different bit positions, so there the two writes commute whenever the pins are
distinct and the registers equal. -/
theorem masked_writes_commute (x : Externals) (bank : rockchip_pin_bank) (p1 p2 : Nat)
    (hp1 : p1 < 32) (hp2 : p2 < 32) (hne : p1 ≠ p2) (old : Nat) (mux1 mux2 : Int)
    (s1 s2 : Nat) (hs1 : s1 ≤ 7) (hs2 : s2 ≤ 7) (pull1 pull2 : Int)
    (hpull1 : pull1 ≠ x.PIN_CONFIG_BIAS_PULL_PIN_DEFAULT)
    (hpull2 : pull2 ≠ x.PIN_CONFIG_BIAS_PULL_PIN_DEFAULT)
    (hcode1 : ∀ ty, bank.pull_type.at ((p1 / 8 : Nat) : Int) = some ty →
      0 ≤ x.rockchip_translate_pull_value (to_u8 ty) pull1 ∧
      x.rockchip_translate_pull_value (to_u8 ty) pull1 ≤ 3)
    (hcode2 : ∀ ty, bank.pull_type.at ((p2 / 8 : Nat) : Int) = some ty →
      0 ≤ x.rockchip_translate_pull_value (to_u8 ty) pull2 ∧
      x.rockchip_translate_pull_value (to_u8 ty) pull2 ≤ 3)
    (e1 e2 : Nat) (he1 : e1 ≤ 1) (he2 : e2 ≤ 1) (m : regmap) :
    (∃ pre1 r1 bit1 v1 pre2 r2 bit2 v2,
      rk3562_mux_reg_and_bit bank (p1 : Int) = some (r1, bit1) ∧
      rk3562_mux_reg_and_bit bank (p2 : Int) = some (r2, bit2) ∧
      rk3562_set_mux m bank (p1 : Int) mux1 =
        some (m.answer (m.log ++ pre1) ⟨r1, v1⟩,
              { m with log := m.log ++ pre1 ++ [⟨r1, v1⟩] }) ∧
      rk3562_set_mux m bank (p2 : Int) mux2 =
        some (m.answer (m.log ++ pre2) ⟨r2, v2⟩,
              { m with log := m.log ++ pre2 ++ [⟨r2, v2⟩] }) ∧
      (r1 = r2 → bit1 ≠ bit2 →
        masked_write (masked_write old v1) v2 = masked_write (masked_write old v2) v1)) ∧
    (∃ r1 v1 r2 v2,
      rk3562_set_drive m bank (p1 : Int) (s1 : Int) =
        some (m.answer m.log ⟨r1, v1⟩, { m with log := m.log ++ [⟨r1, v1⟩] }) ∧
      rk3562_set_drive m bank (p2 : Int) (s2 : Int) =
        some (m.answer m.log ⟨r2, v2⟩, { m with log := m.log ++ [⟨r2, v2⟩] }) ∧
      (r1 = r2 →
        masked_write (masked_write old v1) v2 = masked_write (masked_write old v2) v1)) ∧
    (∃ r1 v1 r2 v2,
      rk3562_set_pull x m bank (p1 : Int) pull1 =
        some (m.answer m.log ⟨r1, v1⟩, { m with log := m.log ++ [⟨r1, v1⟩] }) ∧
      rk3562_set_pull x m bank (p2 : Int) pull2 =
        some (m.answer m.log ⟨r2, v2⟩, { m with log := m.log ++ [⟨r2, v2⟩] }) ∧
      (r1 = r2 →
        masked_write (masked_write old v1) v2 = masked_write (masked_write old v2) v1)) ∧
    (∃ r1 v1 r2 v2,
      rk3562_set_schmitt m bank (p1 : Int) (e1 : Int) =
        some (m.answer m.log ⟨r1, v1⟩, { m with log := m.log ++ [⟨r1, v1⟩] }) ∧
      rk3562_set_schmitt m bank (p2 : Int) (e2 : Int) =
        some (m.answer m.log ⟨r2, v2⟩, { m with log := m.log ++ [⟨r2, v2⟩] }) ∧
      (r1 = r2 →
        masked_write (masked_write old v1) v2 = masked_write (masked_write old v2) v1)) := by
  have ha1 : p1 % 4 < 4 := Nat.mod_lt _ (by norm_num)
  have ha2 : p2 % 4 < 4 := Nat.mod_lt _ (by norm_num)
  have hb1 : p1 % 2 < 2 := Nat.mod_lt _ (by norm_num)
  have hb2 : p2 % 2 < 2 := Nat.mod_lt _ (by norm_num)
  have hc1 : p1 % 8 < 8 := Nat.mod_lt _ (by norm_num)
  have hc2 : p2 % 8 < 8 := Nat.mod_lt _ (by norm_num)
  refine ⟨?_, ?_, ?_, ?_⟩
  · obtain ⟨pre1, r1, hr1, q1⟩ := rk3562_set_mux_field m bank p1 hp1 mux1
    obtain ⟨pre2, r2, hr2, q2⟩ := rk3562_set_mux_field m bank p2 hp2 mux2
    refine ⟨pre1, r1, _, _, pre2, r2, _, _, hr1, hr2, q1, q2, ?_⟩
    intro _ hbit
    have hx1 : (mux1 % 16).toNat < 2 ^ 4 := by
      have := Int.emod_nonneg mux1 (show (16 : Int) ≠ 0 by norm_num)
      have := Int.emod_lt_of_pos mux1 (show (0 : Int) < 16 by norm_num)
      norm_num; omega
    have hx2 : (mux2 % 16).toNat < 2 ^ 4 := by
      have := Int.emod_nonneg mux2 (show (16 : Int) ≠ 0 by norm_num)
      have := Int.emod_lt_of_pos mux2 (show (0 : Int) < 16 by norm_num)
      norm_num; omega
    have hq : p1 % 4 ≠ p2 % 4 := fun h => hbit (by rw [h])
    exact masked_write_comm 4 _ _ _ _ old (by omega) (by omega) hx1 hx2 (by omega)
  · have hl1 : 2 ^ (s1 + 1) - 1 < 2 ^ 8 := by
      have : 2 ^ (s1 + 1) ≤ 2 ^ 8 := Nat.pow_le_pow_right (by norm_num) (by omega)
      have : 0 < 2 ^ (s1 + 1) := Nat.two_pow_pos _
      omega
    have hl2 : 2 ^ (s2 + 1) - 1 < 2 ^ 8 := by
      have : 2 ^ (s2 + 1) ≤ 2 ^ 8 := Nat.pow_le_pow_right (by norm_num) (by omega)
      have : 0 < 2 ^ (s2 + 1) := Nat.two_pow_pos _
      omega
    refine ⟨_, _, _, _, rk3562_set_drive_field m bank p1 s1 hs1,
      rk3562_set_drive_field m bank p2 s2 hs2, ?_⟩
    intro hr
    rw [rk3562_calc_drv_reg_and_bit_eq, rk3562_calc_drv_reg_and_bit_eq] at hr
    simp only [add_right_inj] at hr
    have hq : p1 % 2 ≠ p2 % 2 := by omega
    exact masked_write_comm 8 _ _ _ _ old (by omega) (by omega) hl1 hl2 (by omega)
  · obtain ⟨c1, hc31, _, q1⟩ := rk3562_set_pull_field x m bank p1 hp1 pull1 hpull1 hcode1
    obtain ⟨c2, hc32, _, q2⟩ := rk3562_set_pull_field x m bank p2 hp2 pull2 hpull2 hcode2
    refine ⟨_, _, _, _, q1, q2, ?_⟩
    intro hr
    rw [rk3562_calc_pull_reg_and_bit_eq, rk3562_calc_pull_reg_and_bit_eq] at hr
    simp only [add_right_inj] at hr
    have hq : p1 % 8 ≠ p2 % 8 := by omega
    exact masked_write_comm 2 _ _ _ _ old (by omega) (by omega) (by norm_num; omega)
      (by norm_num; omega) (by omega)
  · refine ⟨_, _, _, _, rk3562_set_schmitt_field m bank p1 e1 (by omega),
      rk3562_set_schmitt_field m bank p2 e2 (by omega), ?_⟩
    intro hr
    rw [rk3562_calc_schmitt_reg_and_bit_eq, rk3562_calc_schmitt_reg_and_bit_eq] at hr
    simp only [add_right_inj] at hr
    have hq : p1 % 8 ≠ p2 % 8 := by omega
    exact masked_write_comm 2 _ _ _ _ old (by omega) (by omega) (by norm_num; omega)
      (by norm_num; omega) (by omega)

/-- C19: for every pin in `0..31` the table lookups and shifts of the four
translators are in range: the group index `pin/8` used to index `iomux[]` and
`pull_type[]` is in `0..3`, so both reads are inside the arrays, and the mask
shift amount `bit+16` is at most 28 in `rk3562_set_mux`, 24 in
`rk3562_set_drive` and 30 in `rk3562_set_pull` and `rk3562_set_schmitt`, so
every shift by `bit` or `bit+16` is defined. -/
theorem rk3562_lookups_and_shifts_in_range (bank : rockchip_pin_bank) (pin : Nat)
    (hp : pin < 32) :
    (0 ≤ c_div (pin : Int) 8 ∧ c_div (pin : Int) 8 ≤ 3) ∧
    (∃ iom, bank.iomux.at (c_div (pin : Int) 8) = some iom) ∧
    (∃ ty, bank.pull_type.at (c_div (pin : Int) 8) = some ty) ∧
    (∃ r bit, rk3562_mux_reg_and_bit bank (pin : Int) = some (r, bit) ∧
      0 ≤ bit ∧ bit + 16 ≤ 28 ∧
      ∀ v, (∃ y, c_shl v (bit + 16) = some y) ∧ (∃ y, c_shl v bit = some y)) ∧
    (0 ≤ (rk3562_calc_drv_reg_and_bit bank (pin : Int)).2 ∧
      (rk3562_calc_drv_reg_and_bit bank (pin : Int)).2 + 16 ≤ 24 ∧
      ∀ v, (∃ y, c_shl v ((rk3562_calc_drv_reg_and_bit bank (pin : Int)).2 + 16) = some y) ∧
        (∃ y, c_shl v (rk3562_calc_drv_reg_and_bit bank (pin : Int)).2 = some y)) ∧
    (0 ≤ (rk3562_calc_pull_reg_and_bit bank (pin : Int)).2 ∧
      (rk3562_calc_pull_reg_and_bit bank (pin : Int)).2 + 16 ≤ 30 ∧
      ∀ v, (∃ y, c_shl v ((rk3562_calc_pull_reg_and_bit bank (pin : Int)).2 + 16) = some y) ∧
        (∃ y, c_shl v (rk3562_calc_pull_reg_and_bit bank (pin : Int)).2 = some y)) ∧
    (0 ≤ (rk3562_calc_schmitt_reg_and_bit bank (pin : Int)).2.2 ∧
      (rk3562_calc_schmitt_reg_and_bit bank (pin : Int)).2.2 + 16 ≤ 30 ∧
      ∀ v, (∃ y, c_shl v ((rk3562_calc_schmitt_reg_and_bit bank (pin : Int)).2.2 + 16)
              = some y) ∧
        (∃ y, c_shl v (rk3562_calc_schmitt_reg_and_bit bank (pin : Int)).2.2 = some y)) := by
  have hk : pin / 8 < 4 := by omega
  have h8 : c_div (pin : Int) 8 = ((pin / 8 : Nat) : Int) := by
    simpa using c_div_natCast pin 8
  have ha : pin % 4 < 4 := Nat.mod_lt _ (by norm_num)
  have hb : pin % 2 < 2 := Nat.mod_lt _ (by norm_num)
  have hc : pin % 8 < 8 := Nat.mod_lt _ (by norm_num)
  have shl : ∀ (n : Nat), n + 16 < 32 → ∀ v : Int,
      (∃ y, c_shl v ((n : Int) + 16) = some y) ∧ (∃ y, c_shl v (n : Int) = some y) := by
    intro n hn v
    have e1 := c_shl_natCast v (n + 16) hn
    push_cast at e1
    exact ⟨⟨_, e1⟩, ⟨_, c_shl_natCast v n (by omega)⟩⟩
  refine ⟨?_, ?_, ?_, ?_, ?_, ?_, ?_⟩
  · rw [h8]; omega
  · rw [h8]; exact ⟨_, Arr4.at_natCast _ _ hk⟩
  · rw [h8]; exact ⟨_, Arr4.at_natCast _ _ hk⟩
  · refine ⟨(if pin / 8 = 0 then bank.iomux.e0 else if pin / 8 = 1 then bank.iomux.e1
        else if pin / 8 = 2 then bank.iomux.e2 else bank.iomux.e3).offset
        + (if 4 ≤ pin % 8 then 4 else 0), (((pin % 4) * 4 : Nat) : Int), ?_,
      by omega, by omega, shl _ (by omega)⟩
    rw [rk3562_mux_reg_and_bit_eq, Arr4.at_natCast _ _ hk]
    rfl
  · rw [rk3562_calc_drv_reg_and_bit_eq]
    exact ⟨by simp only; omega, by simp only; omega, shl _ (by omega)⟩
  · rw [rk3562_calc_pull_reg_and_bit_eq]
    exact ⟨by simp only; omega, by simp only; omega, shl _ (by omega)⟩
  · rw [rk3562_calc_schmitt_reg_and_bit_eq]
    exact ⟨by simp only; omega, by simp only; omega, shl _ (by omega)⟩

/-- Instance of C16 at bank 1, pin 9, register content `0x1234`, mux 3,
strength 2, bias mode 3 of the example collaborator and enable 1. -/
theorem masked_write_updates_only_field_witness :
    (9 : Nat) < 32 ∧ (4660 : Nat) < 65536 ∧ (2 : Nat) ≤ 7 ∧
    (3 : Int) ≠ sample_externals.PIN_CONFIG_BIAS_PULL_PIN_DEFAULT ∧
    (∀ ty, (PIN_BANK_IOMUX_FLAGS_OFFSET 1 32 "gpio1" 2 2 2 2 0 0x08 0x10 0x18).pull_type.at (((9 : Nat) / 8 : Nat) : Int) = some ty →
      0 ≤ sample_externals.rockchip_translate_pull_value (to_u8 ty) (3 : Int) ∧
      sample_externals.rockchip_translate_pull_value (to_u8 ty) (3 : Int) ≤ 3) ∧
    (1 : Nat) ≤ 1 ∧
    ((∃ pre r v,
      rk3562_set_mux quiet_regmap (PIN_BANK_IOMUX_FLAGS_OFFSET 1 32 "gpio1" 2 2 2 2 0 0x08 0x10 0x18) ((9 : Nat) : Int) (3 : Int) =
        some (quiet_regmap.answer (quiet_regmap.log ++ pre) ⟨r, v⟩, { quiet_regmap with log := quiet_regmap.log ++ pre ++ [⟨r, v⟩] }) ∧
      (masked_write (4660 : Nat) v / 2 ^ (((9 : Nat) % 4) * 4)) % 16 = ((3 : Int) % 16).toNat ∧
      ∀ i, (i < ((9 : Nat) % 4) * 4 ∨ ((9 : Nat) % 4) * 4 + 4 ≤ i) →
        (masked_write (4660 : Nat) v).testBit i = (4660 : Nat).testBit i) ∧
    (∃ r v,
      rk3562_set_drive quiet_regmap (PIN_BANK_IOMUX_FLAGS_OFFSET 1 32 "gpio1" 2 2 2 2 0 0x08 0x10 0x18) ((9 : Nat) : Int) ((2 : Nat) : Int) =
        some (quiet_regmap.answer quiet_regmap.log ⟨r, v⟩, { quiet_regmap with log := quiet_regmap.log ++ [⟨r, v⟩] }) ∧
      (masked_write (4660 : Nat) v / 2 ^ (((9 : Nat) % 2) * 8)) % 256 = 2 ^ ((2 : Nat) + 1) - 1 ∧
      ∀ i, (i < ((9 : Nat) % 2) * 8 ∨ ((9 : Nat) % 2) * 8 + 8 ≤ i) →
        (masked_write (4660 : Nat) v).testBit i = (4660 : Nat).testBit i) ∧
    (∃ (c : Nat) (ty : Int) (r : Int) (v : Nat),
      (PIN_BANK_IOMUX_FLAGS_OFFSET 1 32 "gpio1" 2 2 2 2 0 0x08 0x10 0x18).pull_type.at (((9 : Nat) / 8 : Nat) : Int) = some ty ∧
      sample_externals.rockchip_translate_pull_value (to_u8 ty) (3 : Int) = (c : Int) ∧
      rk3562_set_pull sample_externals quiet_regmap (PIN_BANK_IOMUX_FLAGS_OFFSET 1 32 "gpio1" 2 2 2 2 0 0x08 0x10 0x18) ((9 : Nat) : Int) (3 : Int) =
        some (quiet_regmap.answer quiet_regmap.log ⟨r, v⟩, { quiet_regmap with log := quiet_regmap.log ++ [⟨r, v⟩] }) ∧
      (masked_write (4660 : Nat) v / 2 ^ (((9 : Nat) % 8) * 2)) % 4 = c ∧
      ∀ i, (i < ((9 : Nat) % 8) * 2 ∨ ((9 : Nat) % 8) * 2 + 2 ≤ i) →
        (masked_write (4660 : Nat) v).testBit i = (4660 : Nat).testBit i) ∧
    (∃ r v,
      rk3562_set_schmitt quiet_regmap (PIN_BANK_IOMUX_FLAGS_OFFSET 1 32 "gpio1" 2 2 2 2 0 0x08 0x10 0x18) ((9 : Nat) : Int) ((1 : Nat) : Int) =
        some (quiet_regmap.answer quiet_regmap.log ⟨r, v⟩, { quiet_regmap with log := quiet_regmap.log ++ [⟨r, v⟩] }) ∧
      (masked_write (4660 : Nat) v / 2 ^ (((9 : Nat) % 8) * 2)) % 4 = (1 : Nat) ∧
      ∀ i, (i < ((9 : Nat) % 8) * 2 ∨ ((9 : Nat) % 8) * 2 + 2 ≤ i) →
        (masked_write (4660 : Nat) v).testBit i = (4660 : Nat).testBit i)) :=
  ⟨by decide, by decide, by decide, by decide,
    fun _ _ => by simp [sample_externals], by decide,
    masked_write_updates_only_field sample_externals
      (PIN_BANK_IOMUX_FLAGS_OFFSET 1 32 "gpio1" 2 2 2 2 0 0x08 0x10 0x18)
      9 (by decide) 4660 (by decide) 3 2 (by decide) 3 (by decide)
      (fun _ _ => by simp [sample_externals]) 1 (by decide) quiet_regmap⟩

/-- Instance of C17 at bank 0, pin 5 and bank 3, pin 10. -/
theorem rk3562_property_registers_disjoint_witness :
    (PIN_BANK_IOMUX_FLAGS_OFFSET 0 32 "gpio0" 2 2 2 2 0x20000 0x20008 0x20010 0x20018) ∈ rk3562_pin_banks 2 ∧
    (PIN_BANK_IOMUX_FLAGS_OFFSET 3 32 "gpio3" 2 2 2 2 0x10040 0x10048 0x10050 0x10058) ∈ rk3562_pin_banks 2 ∧
    (5 : Nat) < (PIN_BANK_IOMUX_FLAGS_OFFSET 0 32 "gpio0" 2 2 2 2 0x20000 0x20008 0x20010 0x20018).nr_pins ∧
    (10 : Nat) < (PIN_BANK_IOMUX_FLAGS_OFFSET 3 32 "gpio3" 2 2 2 2 0x10040 0x10048 0x10050 0x10058).nr_pins ∧
    (∃ rm bit, rk3562_mux_reg_and_bit (PIN_BANK_IOMUX_FLAGS_OFFSET 0 32 "gpio0" 2 2 2 2 0x20000 0x20008 0x20010 0x20018) ((5 : Nat) : Int) = some (rm, bit) ∧
      rm ≠ (rk3562_calc_drv_reg_and_bit (PIN_BANK_IOMUX_FLAGS_OFFSET 3 32 "gpio3" 2 2 2 2 0x10040 0x10048 0x10050 0x10058) ((10 : Nat) : Int)).1 ∧
      rm ≠ (rk3562_calc_pull_reg_and_bit (PIN_BANK_IOMUX_FLAGS_OFFSET 3 32 "gpio3" 2 2 2 2 0x10040 0x10048 0x10050 0x10058) ((10 : Nat) : Int)).1 ∧
      rm ≠ (rk3562_calc_schmitt_reg_and_bit (PIN_BANK_IOMUX_FLAGS_OFFSET 3 32 "gpio3" 2 2 2 2 0x10040 0x10048 0x10050 0x10058) ((10 : Nat) : Int)).2.1 ∧
      (rk3562_calc_drv_reg_and_bit (PIN_BANK_IOMUX_FLAGS_OFFSET 0 32 "gpio0" 2 2 2 2 0x20000 0x20008 0x20010 0x20018) ((5 : Nat) : Int)).1 ≠
        (rk3562_calc_pull_reg_and_bit (PIN_BANK_IOMUX_FLAGS_OFFSET 3 32 "gpio3" 2 2 2 2 0x10040 0x10048 0x10050 0x10058) ((10 : Nat) : Int)).1 ∧
      (rk3562_calc_drv_reg_and_bit (PIN_BANK_IOMUX_FLAGS_OFFSET 0 32 "gpio0" 2 2 2 2 0x20000 0x20008 0x20010 0x20018) ((5 : Nat) : Int)).1 ≠
        (rk3562_calc_schmitt_reg_and_bit (PIN_BANK_IOMUX_FLAGS_OFFSET 3 32 "gpio3" 2 2 2 2 0x10040 0x10048 0x10050 0x10058) ((10 : Nat) : Int)).2.1 ∧
      (rk3562_calc_pull_reg_and_bit (PIN_BANK_IOMUX_FLAGS_OFFSET 0 32 "gpio0" 2 2 2 2 0x20000 0x20008 0x20010 0x20018) ((5 : Nat) : Int)).1 ≠
        (rk3562_calc_schmitt_reg_and_bit (PIN_BANK_IOMUX_FLAGS_OFFSET 3 32 "gpio3" 2 2 2 2 0x10040 0x10048 0x10050 0x10058) ((10 : Nat) : Int)).2.1 ∧
      rm ≠ 0x504 ∧
      (rk3562_calc_drv_reg_and_bit (PIN_BANK_IOMUX_FLAGS_OFFSET 0 32 "gpio0" 2 2 2 2 0x20000 0x20008 0x20010 0x20018) ((5 : Nat) : Int)).1 ≠ 0x504 ∧
      (rk3562_calc_pull_reg_and_bit (PIN_BANK_IOMUX_FLAGS_OFFSET 0 32 "gpio0" 2 2 2 2 0x20000 0x20008 0x20010 0x20018) ((5 : Nat) : Int)).1 ≠ 0x504 ∧
      (rk3562_calc_schmitt_reg_and_bit (PIN_BANK_IOMUX_FLAGS_OFFSET 0 32 "gpio0" 2 2 2 2 0x20000 0x20008 0x20010 0x20018) ((5 : Nat) : Int)).2.1 ≠ 0x504) :=
  ⟨List.Mem.head _,
    List.Mem.tail _ (List.Mem.tail _ (List.Mem.tail _ (List.Mem.head _))),
    by decide, by decide,
    rk3562_property_registers_disjoint 2 _ _ (List.Mem.head _)
      (List.Mem.tail _ (List.Mem.tail _ (List.Mem.tail _ (List.Mem.head _))))
      5 10 (by decide) (by decide)⟩

/-- Instance of amended C18 at bank 1, pins 8 and 9, register content `0x1234`. -/
theorem masked_writes_commute_witness :
    (8 : Nat) < 32 ∧ (9 : Nat) < 32 ∧ (8 : Nat) ≠ 9 ∧ (2 : Nat) ≤ 7 ∧ (0 : Nat) ≤ 7 ∧
    (3 : Int) ≠ sample_externals.PIN_CONFIG_BIAS_PULL_PIN_DEFAULT ∧
    (1 : Int) ≠ sample_externals.PIN_CONFIG_BIAS_PULL_PIN_DEFAULT ∧
    (∀ ty, (PIN_BANK_IOMUX_FLAGS_OFFSET 1 32 "gpio1" 2 2 2 2 0 0x08 0x10 0x18).pull_type.at (((8 : Nat) / 8 : Nat) : Int) = some ty →
      0 ≤ sample_externals.rockchip_translate_pull_value (to_u8 ty) (3 : Int) ∧
      sample_externals.rockchip_translate_pull_value (to_u8 ty) (3 : Int) ≤ 3) ∧
    (∀ ty, (PIN_BANK_IOMUX_FLAGS_OFFSET 1 32 "gpio1" 2 2 2 2 0 0x08 0x10 0x18).pull_type.at (((9 : Nat) / 8 : Nat) : Int) = some ty →
      0 ≤ sample_externals.rockchip_translate_pull_value (to_u8 ty) (1 : Int) ∧
      sample_externals.rockchip_translate_pull_value (to_u8 ty) (1 : Int) ≤ 3) ∧
    (1 : Nat) ≤ 1 ∧ (0 : Nat) ≤ 1 ∧
    ((∃ pre1 r1 bit1 v1 pre2 r2 bit2 v2,
      rk3562_mux_reg_and_bit (PIN_BANK_IOMUX_FLAGS_OFFSET 1 32 "gpio1" 2 2 2 2 0 0x08 0x10 0x18) ((8 : Nat) : Int) = some (r1, bit1) ∧
      rk3562_mux_reg_and_bit (PIN_BANK_IOMUX_FLAGS_OFFSET 1 32 "gpio1" 2 2 2 2 0 0x08 0x10 0x18) ((9 : Nat) : Int) = some (r2, bit2) ∧
      rk3562_set_mux quiet_regmap (PIN_BANK_IOMUX_FLAGS_OFFSET 1 32 "gpio1" 2 2 2 2 0 0x08 0x10 0x18) ((8 : Nat) : Int) (3 : Int) =
        some (quiet_regmap.answer (quiet_regmap.log ++ pre1) ⟨r1, v1⟩,
              { quiet_regmap with log := quiet_regmap.log ++ pre1 ++ [⟨r1, v1⟩] }) ∧
      rk3562_set_mux quiet_regmap (PIN_BANK_IOMUX_FLAGS_OFFSET 1 32 "gpio1" 2 2 2 2 0 0x08 0x10 0x18) ((9 : Nat) : Int) (5 : Int) =
        some (quiet_regmap.answer (quiet_regmap.log ++ pre2) ⟨r2, v2⟩,
              { quiet_regmap with log := quiet_regmap.log ++ pre2 ++ [⟨r2, v2⟩] }) ∧
      (r1 = r2 → bit1 ≠ bit2 →
        masked_write (masked_write (4660 : Nat) v1) v2 = masked_write (masked_write (4660 : Nat) v2) v1)) ∧
    (∃ r1 v1 r2 v2,
      rk3562_set_drive quiet_regmap (PIN_BANK_IOMUX_FLAGS_OFFSET 1 32 "gpio1" 2 2 2 2 0 0x08 0x10 0x18) ((8 : Nat) : Int) ((2 : Nat) : Int) =
        some (quiet_regmap.answer quiet_regmap.log ⟨r1, v1⟩, { quiet_regmap with log := quiet_regmap.log ++ [⟨r1, v1⟩] }) ∧
      rk3562_set_drive quiet_regmap (PIN_BANK_IOMUX_FLAGS_OFFSET 1 32 "gpio1" 2 2 2 2 0 0x08 0x10 0x18) ((9 : Nat) : Int) ((0 : Nat) : Int) =
        some (quiet_regmap.answer quiet_regmap.log ⟨r2, v2⟩, { quiet_regmap with log := quiet_regmap.log ++ [⟨r2, v2⟩] }) ∧
      (r1 = r2 →
        masked_write (masked_write (4660 : Nat) v1) v2 = masked_write (masked_write (4660 : Nat) v2) v1)) ∧
    (∃ r1 v1 r2 v2,
      rk3562_set_pull sample_externals quiet_regmap (PIN_BANK_IOMUX_FLAGS_OFFSET 1 32 "gpio1" 2 2 2 2 0 0x08 0x10 0x18) ((8 : Nat) : Int) (3 : Int) =
        some (quiet_regmap.answer quiet_regmap.log ⟨r1, v1⟩, { quiet_regmap with log := quiet_regmap.log ++ [⟨r1, v1⟩] }) ∧
      rk3562_set_pull sample_externals quiet_regmap (PIN_BANK_IOMUX_FLAGS_OFFSET 1 32 "gpio1" 2 2 2 2 0 0x08 0x10 0x18) ((9 : Nat) : Int) (1 : Int) =
        some (quiet_regmap.answer quiet_regmap.log ⟨r2, v2⟩, { quiet_regmap with log := quiet_regmap.log ++ [⟨r2, v2⟩] }) ∧
      (r1 = r2 →
        masked_write (masked_write (4660 : Nat) v1) v2 = masked_write (masked_write (4660 : Nat) v2) v1)) ∧
    (∃ r1 v1 r2 v2,
      rk3562_set_schmitt quiet_regmap (PIN_BANK_IOMUX_FLAGS_OFFSET 1 32 "gpio1" 2 2 2 2 0 0x08 0x10 0x18) ((8 : Nat) : Int) ((1 : Nat) : Int) =
        some (quiet_regmap.answer quiet_regmap.log ⟨r1, v1⟩, { quiet_regmap with log := quiet_regmap.log ++ [⟨r1, v1⟩] }) ∧
      rk3562_set_schmitt quiet_regmap (PIN_BANK_IOMUX_FLAGS_OFFSET 1 32 "gpio1" 2 2 2 2 0 0x08 0x10 0x18) ((9 : Nat) : Int) ((0 : Nat) : Int) =
        some (quiet_regmap.answer quiet_regmap.log ⟨r2, v2⟩, { quiet_regmap with log := quiet_regmap.log ++ [⟨r2, v2⟩] }) ∧
      (r1 = r2 →
        masked_write (masked_write (4660 : Nat) v1) v2 = masked_write (masked_write (4660 : Nat) v2) v1))) :=
  ⟨by decide, by decide, by decide, by decide, by decide, by decide, by decide,
    fun _ _ => by simp [sample_externals], fun _ _ => by simp [sample_externals],
    by decide, by decide,
    masked_writes_commute sample_externals
      (PIN_BANK_IOMUX_FLAGS_OFFSET 1 32 "gpio1" 2 2 2 2 0 0x08 0x10 0x18)
      8 9 (by decide) (by decide) (by decide) 4660 3 5 2 0 (by decide) (by decide) 3 1
      (by decide) (by decide) (fun _ _ => by simp [sample_externals])
      (fun _ _ => by simp [sample_externals]) 1 0 (by decide) (by decide) quiet_regmap⟩

/-- Instance of C19 at bank 3, pin 31. -/
theorem rk3562_lookups_and_shifts_in_range_witness :
    (31 : Nat) < 32 ∧
    ((0 ≤ c_div ((31 : Nat) : Int) 8 ∧ c_div ((31 : Nat) : Int) 8 ≤ 3) ∧
    (∃ iom, (PIN_BANK_IOMUX_FLAGS_OFFSET 3 32 "gpio3" 2 2 2 2 0x10040 0x10048 0x10050 0x10058).iomux.at (c_div ((31 : Nat) : Int) 8) = some iom) ∧
    (∃ ty, (PIN_BANK_IOMUX_FLAGS_OFFSET 3 32 "gpio3" 2 2 2 2 0x10040 0x10048 0x10050 0x10058).pull_type.at (c_div ((31 : Nat) : Int) 8) = some ty) ∧
    (∃ r bit, rk3562_mux_reg_and_bit (PIN_BANK_IOMUX_FLAGS_OFFSET 3 32 "gpio3" 2 2 2 2 0x10040 0x10048 0x10050 0x10058) ((31 : Nat) : Int) = some (r, bit) ∧
      0 ≤ bit ∧ bit + 16 ≤ 28 ∧
      ∀ v, (∃ y, c_shl v (bit + 16) = some y) ∧ (∃ y, c_shl v bit = some y)) ∧
    (0 ≤ (rk3562_calc_drv_reg_and_bit (PIN_BANK_IOMUX_FLAGS_OFFSET 3 32 "gpio3" 2 2 2 2 0x10040 0x10048 0x10050 0x10058) ((31 : Nat) : Int)).2 ∧
      (rk3562_calc_drv_reg_and_bit (PIN_BANK_IOMUX_FLAGS_OFFSET 3 32 "gpio3" 2 2 2 2 0x10040 0x10048 0x10050 0x10058) ((31 : Nat) : Int)).2 + 16 ≤ 24 ∧
      ∀ v, (∃ y, c_shl v ((rk3562_calc_drv_reg_and_bit (PIN_BANK_IOMUX_FLAGS_OFFSET 3 32 "gpio3" 2 2 2 2 0x10040 0x10048 0x10050 0x10058) ((31 : Nat) : Int)).2 + 16) = some y) ∧
        (∃ y, c_shl v (rk3562_calc_drv_reg_and_bit (PIN_BANK_IOMUX_FLAGS_OFFSET 3 32 "gpio3" 2 2 2 2 0x10040 0x10048 0x10050 0x10058) ((31 : Nat) : Int)).2 = some y)) ∧
    (0 ≤ (rk3562_calc_pull_reg_and_bit (PIN_BANK_IOMUX_FLAGS_OFFSET 3 32 "gpio3" 2 2 2 2 0x10040 0x10048 0x10050 0x10058) ((31 : Nat) : Int)).2 ∧
      (rk3562_calc_pull_reg_and_bit (PIN_BANK_IOMUX_FLAGS_OFFSET 3 32 "gpio3" 2 2 2 2 0x10040 0x10048 0x10050 0x10058) ((31 : Nat) : Int)).2 + 16 ≤ 30 ∧
      ∀ v, (∃ y, c_shl v ((rk3562_calc_pull_reg_and_bit (PIN_BANK_IOMUX_FLAGS_OFFSET 3 32 "gpio3" 2 2 2 2 0x10040 0x10048 0x10050 0x10058) ((31 : Nat) : Int)).2 + 16) = some y) ∧
        (∃ y, c_shl v (rk3562_calc_pull_reg_and_bit (PIN_BANK_IOMUX_FLAGS_OFFSET 3 32 "gpio3" 2 2 2 2 0x10040 0x10048 0x10050 0x10058) ((31 : Nat) : Int)).2 = some y)) ∧
    (0 ≤ (rk3562_calc_schmitt_reg_and_bit (PIN_BANK_IOMUX_FLAGS_OFFSET 3 32 "gpio3" 2 2 2 2 0x10040 0x10048 0x10050 0x10058) ((31 : Nat) : Int)).2.2 ∧
      (rk3562_calc_schmitt_reg_and_bit (PIN_BANK_IOMUX_FLAGS_OFFSET 3 32 "gpio3" 2 2 2 2 0x10040 0x10048 0x10050 0x10058) ((31 : Nat) : Int)).2.2 + 16 ≤ 30 ∧
      ∀ v, (∃ y, c_shl v ((rk3562_calc_schmitt_reg_and_bit (PIN_BANK_IOMUX_FLAGS_OFFSET 3 32 "gpio3" 2 2 2 2 0x10040 0x10048 0x10050 0x10058) ((31 : Nat) : Int)).2.2 + 16)
              = some y) ∧
        (∃ y, c_shl v (rk3562_calc_schmitt_reg_and_bit (PIN_BANK_IOMUX_FLAGS_OFFSET 3 32 "gpio3" 2 2 2 2 0x10040 0x10048 0x10050 0x10058) ((31 : Nat) : Int)).2.2 = some y))) :=
  ⟨by decide,
    rk3562_lookups_and_shifts_in_range
      (PIN_BANK_IOMUX_FLAGS_OFFSET 3 32 "gpio3" 2 2 2 2 0x10040 0x10048 0x10050 0x10058)
      31 (by decide)⟩

end RK3562
